import Mathlib

/-!
Verification of the local-first note synchronization engine of the Onyx
note-taking application (frontend hook `usePocketBaseSync`, editor save path
`saveToDatabase`, app delete path `handleDeleteNote`).

The TypeScript source is shallowly embedded: the reconciliation pass
(`syncList`), the realtime subscription handler, the local-delete listener and
the editor save path become pure Lean functions over an explicit state
(`SyncState`) that records the local note table, the remote document
collection and the single-flight flag.  Every observable effect issued by a
run (remote create, local binding, local import, local overwrite, refresh
signal, delete request) is recorded in an operation trace (`List Op`), so that
counting and frame properties can be stated about exactly what a pass does.

Remote network calls and local Tauri commands can fail; failure injection is
modelled by a `SyncEnv` of boolean-valued failure oracles, mirroring which
`try`/`catch` boundary catches each failure in the source.

The JavaScript value semantics that the source leans on (JSON.parse of legacy
content, truthiness tests such as `!note.pb_id` and `parsed[0].content`) are
embedded via a small JSON value type `JsonVal` together with a JSON reader and
JS truthiness.
-/

/-- A JSON value as produced by JavaScript `JSON.parse`.  Numbers keep their
source lexeme: no claim depends on numeric arithmetic, only on JS truthiness,
which is decidable from the lexeme. -/
inductive JsonVal where
  | null : JsonVal
  | bool : Bool → JsonVal
  | num : String → JsonVal
  | str : String → JsonVal
  | arr : List JsonVal → JsonVal
  | obj : List (String × JsonVal) → JsonVal

/-- ASCII whitespace accepted between JSON tokens (and trimmed by `trim`). -/
def isWsChar (c : Char) : Bool :=
  c = ' ' || c = '\t' || c = '\n' || c = '\r'

/-- Drop leading whitespace characters. -/
def dropWs : List Char → List Char
  | [] => []
  | c :: cs => if isWsChar c then dropWs cs else c :: cs

/-- Value of one hexadecimal digit, if any. -/
def hexVal (c : Char) : Option Nat :=
  if '0' ≤ c ∧ c ≤ '9' then some (c.toNat - '0'.toNat)
  else if 'a' ≤ c ∧ c ≤ 'f' then some (c.toNat - 'a'.toNat + 10)
  else if 'A' ≤ c ∧ c ≤ 'F' then some (c.toNat - 'A'.toNat + 10)
  else none

/-- Translation of a single-character JSON string escape. -/
def escChar (c : Char) : Option Char :=
  if c = '"' then some '"'
  else if c = '\\' then some '\\'
  else if c = '/' then some '/'
  else if c = 'b' then some (Char.ofNat 8)
  else if c = 'f' then some (Char.ofNat 12)
  else if c = 'n' then some '\n'
  else if c = 'r' then some '\r'
  else if c = 't' then some '\t'
  else none

/-- Read the body of a JSON string (the opening quote already consumed),
returning the decoded string and the rest of the input. -/
def readStr (fuel : Nat) (cs : List Char) (acc : List Char) :
    Option (String × List Char) :=
  match fuel with
  | 0 => none
  | fuel + 1 =>
    match cs with
    | [] => none
    | c :: rest =>
      if c = '"' then some (String.mk acc.reverse, rest)
      else if c = '\\' then
        match rest with
        | [] => none
        | e :: rest2 =>
          if e = 'u' then
            match rest2 with
            | h1 :: h2 :: h3 :: h4 :: rest3 =>
              match hexVal h1, hexVal h2, hexVal h3, hexVal h4 with
              | some a, some b, some c2, some d =>
                readStr fuel rest3 (Char.ofNat (((a * 16 + b) * 16 + c2) * 16 + d) :: acc)
              | _, _, _, _ => none
            | _ => none
          else
            match escChar e with
            | some ch => readStr fuel rest2 (ch :: acc)
            | none => none
      else readStr fuel rest (c :: acc)

/-- Read the remaining characters of a JSON number lexeme (digits, fraction,
exponent), given that the lexeme is known to be nonempty. -/
def readNumTail : List Char → List Char → (List Char × List Char)
  | [], acc => (acc.reverse, [])
  | c :: cs, acc =>
    if c.isDigit || c = '.' || c = 'e' || c = 'E' || c = '+' || c = '-' then
      readNumTail cs (c :: acc)
    else (acc.reverse, c :: cs)

/-- A JSON number lexeme denotes zero exactly when every mantissa digit is 0
(the exponent cannot make a nonzero mantissa zero). -/
def numIsZero (lexeme : String) : Bool :=
  let mantissa := lexeme.data.takeWhile (fun c => c ≠ 'e' ∧ c ≠ 'E')
  mantissa.all (fun c => c = '0' || c = '.' || c = '-' || c = '+')

mutual

/-- Read one JSON value.  Returns the value and the unconsumed input. -/
def readVal (fuel : Nat) (cs : List Char) : Option (JsonVal × List Char) :=
  match fuel with
  | 0 => none
  | fuel + 1 =>
    match dropWs cs with
    | [] => none
    | c :: rest =>
      if c = '{' then readObj fuel rest []
      else if c = '[' then readArr fuel rest []
      else if c = '"' then
        match readStr fuel rest [] with
        | some (s, rest2) => some (JsonVal.str s, rest2)
        | none => none
      else if c = 't' then
        match rest with
        | 'r' :: 'u' :: 'e' :: rest2 => some (JsonVal.bool true, rest2)
        | _ => none
      else if c = 'f' then
        match rest with
        | 'a' :: 'l' :: 's' :: 'e' :: rest2 => some (JsonVal.bool false, rest2)
        | _ => none
      else if c = 'n' then
        match rest with
        | 'u' :: 'l' :: 'l' :: rest2 => some (JsonVal.null, rest2)
        | _ => none
      else if c.isDigit || c = '-' then
        let (lex, rest2) := readNumTail rest [c]
        some (JsonVal.num (String.mk lex), rest2)
      else none

/-- Read the elements of a JSON array (the opening bracket already consumed). -/
def readArr (fuel : Nat) (cs : List Char) (acc : List JsonVal) :
    Option (JsonVal × List Char) :=
  match fuel with
  | 0 => none
  | fuel + 1 =>
    match dropWs cs with
    | ']' :: rest => if acc.isEmpty then some (JsonVal.arr [], rest) else none
    | cs2 =>
      match readVal fuel cs2 with
      | none => none
      | some (v, rest) =>
        match dropWs rest with
        | ',' :: rest2 => readArr fuel rest2 (v :: acc)
        | ']' :: rest2 => some (JsonVal.arr (acc.reverse ++ [v]), rest2)
        | _ => none

/-- Read the members of a JSON object (the opening brace already consumed). -/
def readObj (fuel : Nat) (cs : List Char) (acc : List (String × JsonVal)) :
    Option (JsonVal × List Char) :=
  match fuel with
  | 0 => none
  | fuel + 1 =>
    match dropWs cs with
    | '}' :: rest => if acc.isEmpty then some (JsonVal.obj [], rest) else none
    | '"' :: cs2 =>
      match readStr fuel cs2 [] with
      | none => none
      | some (key, rest) =>
        match dropWs rest with
        | ':' :: rest2 =>
          match readVal fuel rest2 with
          | none => none
          | some (v, rest3) =>
            match dropWs rest3 with
            | ',' :: rest4 => readObj fuel rest4 ((key, v) :: acc)
            | '}' :: rest4 => some (JsonVal.obj (acc.reverse ++ [(key, v)]), rest4)
            | _ => none
        | _ => none
    | _ => none

end

/-- Embedding of JavaScript `JSON.parse`: parse the whole string as one JSON
value, tolerating surrounding whitespace; `none` models a thrown SyntaxError. -/
def parseJson (s : String) : Option JsonVal :=
  match readVal (s.data.length + 2) s.data with
  | some (v, rest) => if (dropWs rest).isEmpty then some v else none
  | none => none

/-- JavaScript truthiness of a parsed JSON value. -/
def jsTruthy : JsonVal → Bool
  | JsonVal.null => false
  | JsonVal.bool b => b
  | JsonVal.num lexeme => !numIsZero lexeme
  | JsonVal.str s => !(s.isEmpty)
  | JsonVal.arr _ => true
  | JsonVal.obj _ => true

/-- JavaScript property access `v[key]` on a parsed JSON value: only objects
have own properties; JSON.parse keeps the last of duplicate keys. -/
def getProp : JsonVal → String → Option JsonVal
  | JsonVal.obj fields, key =>
    (fields.reverse.find? (fun p => p.fst == key)).map (fun p => p.snd)
  | _, _ => none

/-- Escape a string for inclusion in JSON text (as `JSON.stringify` does). -/
def jsonEscapeChar (c : Char) : List Char :=
  if c = '"' then ['\\', '"']
  else if c = '\\' then ['\\', '\\']
  else if c = '\n' then ['\\', 'n']
  else if c = '\r' then ['\\', 'r']
  else if c = '\t' then ['\\', 't']
  else [c]

/-- JSON text for a string value. -/
def jsonQuote (s : String) : String :=
  String.mk ('"' :: (s.data.foldr (fun c acc => jsonEscapeChar c ++ acc) ['"']))

/-- Serialize a JSON value back to JSON text, with fuel for nesting depth.
Used only to model how a non-string field value would be coerced to the
remote text column; every content exercised by the claims is a string. -/
def serializeF : Nat → JsonVal → String
  | 0, _ => ""
  | _, JsonVal.null => "null"
  | _, JsonVal.bool true => "true"
  | _, JsonVal.bool false => "false"
  | _, JsonVal.num lexeme => lexeme
  | _, JsonVal.str s => jsonQuote s
  | fuel + 1, JsonVal.arr vs =>
    "[" ++ String.intercalate "," (vs.map (serializeF fuel)) ++ "]"
  | fuel + 1, JsonVal.obj fields =>
    "\x7b" ++
      String.intercalate ","
        (fields.map (fun p => jsonQuote p.fst ++ ":" ++ serializeF fuel p.snd)) ++
      "\x7d"

/-- Text a JS value turns into when sent as the `content` field: strings go
verbatim, any other value is serialized to JSON text.  The fuel bounds the
nesting depth; callers pass the length of the source text the value was parsed
from, which always suffices. -/
def jsToText (fuel : Nat) (v : JsonVal) : String :=
  match v with
  | JsonVal.str s => s
  | v => serializeF fuel v

/-- Model of JavaScript `String.prototype.trim` (ASCII whitespace). -/
def jsTrim (s : String) : String :=
  String.mk ((dropWs s.data.reverse).reverse |> dropWs)

/-- Does the string start with the character `[` (the source's
`rawContent.trim().startsWith('[')` applies this after trimming)? -/
def startsBracket (s : String) : Bool :=
  match s.data with
  | '[' :: _ => true
  | _ => false

/-- The JS expression `parsed[0].content` guarded by
`Array.isArray(parsed) && parsed.length > 0`: the `content` property of the
first element of an array, `none` standing for `undefined`. -/
def arrayFirstContent : JsonVal → Option JsonVal
  | JsonVal.arr (x :: _) => getProp x "content"
  | _ => none

/-- Legacy-wrapper flattening performed on local content before upload, from
the push loop of `syncList` in `usePocketBaseSync`:
if the trimmed content starts with `[` and parses as JSON, and the parse
result is a nonempty array whose first element has a truthy `content`
property, the content becomes that property; in every other case (including a
parse error, which the source catches) the content is sent unchanged. -/
def flattenContent (raw : String) : String :=
  if startsBracket (jsTrim raw) then
    match parseJson raw with
    | some parsed =>
      match arrayFirstContent parsed with
      | some inner =>
        if jsTruthy inner then jsToText (raw.data.length + 2) inner else raw
      | none => raw
    | none => raw
  else raw

example : flattenContent "[\x7b\"id\":\"main\",\"type\":\"p\",\"content\":\"hello\"\x7d]" = "hello" := by decide
example : flattenContent "hello" = "hello" := by decide
example : flattenContent "[\x7b\"content\":\"x\"\x7d]" = "x" := by decide
example : flattenContent "[1,2]" = "[1,2]" := by decide
example : flattenContent "\x7b\"iv\":\"a\",\"salt\":\"b\",\"data\":\"c\"\x7d" = "\x7b\"iv\":\"a\",\"salt\":\"b\",\"data\":\"c\"\x7d" := by decide
example : flattenContent "[\x7b\"id\":\"main\",\"type\":\"p\",\"content\":\"\"\x7d]" = "[\x7b\"id\":\"main\",\"type\":\"p\",\"content\":\"\"\x7d]" := by decide

/-- A row of the device-local note table as the sync engine sees it
(`get_notes` plus `get_note_content`): local integer id, title, full stored
content, `updated_at` in milliseconds UTC (the source converts the SQLite
text timestamp with `new Date(t + "Z").getTime()`), and the bound PocketBase
id, if any. -/
structure LocalNote where
  id : Nat
  title : String
  content : String
  updated_at : Int
  pb_id : Option String
deriving DecidableEq, Repr

/-- A remote PocketBase document from `getFullList`: string id, title,
content, server `updated` timestamp in milliseconds UTC, and owner. -/
structure RemoteDoc where
  id : String
  title : String
  content : String
  updated : Int
  owner : String
deriving DecidableEq, Repr

/-- Joint state of the two stores and the orchestrator: the local note
table, the remote collection, the id counters of the two stores, and the
single-flight `isSyncingRef` flag. -/
structure SyncState where
  locals : List LocalNote
  remotes : List RemoteDoc
  nextPbId : Nat
  nextLocalId : Nat
  isSyncing : Bool
deriving DecidableEq, Repr

/-- One observable operation issued by the engine.  Store-mutating
constructors (`createRemote`, `bindPbId`, `importLocal`, `updateLocal`)
record effects that actually happened; the request constructors
(`deleteRemoteReq`, `deleteLocalByPbReq`, `updateRemoteReq`) record that the
corresponding fire-and-forget call was issued, whether or not it succeeds. -/
inductive Op where
  | createRemote (localId : Nat) (pbId : String) (title content owner : String)
  | bindPbId (localId : Nat) (pbId : String)
  | importLocal (localId : Nat) (pbId : String) (title content : String) (updatedAt : Int)
  | updateLocal (localId : Nat) (title content : String)
  | refresh
  | deleteRemoteReq (pbId : String)
  | deleteLocalByPbReq (pbId : String)
  | deleteLocal (localId : Nat)
  | updateRemoteReq (pbId : String) (title content : String)
deriving DecidableEq, Repr

/-- Failure-injection environment: which remote/local calls throw, plus the
wall clock used for server-side and local `updated_at` stamping. -/
structure SyncEnv where
  now : Int
  createFails : Nat → Bool
  bindFails : Nat → Bool
  importFails : String → Bool
  updateFails : Nat → Bool
  remoteDeleteFails : Bool
  remoteUpdateFails : String → Bool

/-- An environment in which every call succeeds. -/
def okEnv (now : Int) : SyncEnv :=
  { now := now
    createFails := fun _ => false
    bindFails := fun _ => false
    importFails := fun _ => false
    updateFails := fun _ => false
    remoteDeleteFails := false
    remoteUpdateFails := fun _ => false }

/-- JavaScript falsiness of an optional string field: `null`, `undefined`
and the empty string are falsy (the source tests `!note.pb_id`). -/
def jsFalsy : Option String → Bool
  | none => true
  | some s => decide (s = "")

/-- Fresh PocketBase id assigned by the remote store for the k-th created
document (a modelling device standing for the server's random id). -/
def genId (k : Nat) : String :=
  String.mk ('p' :: 'b' :: List.replicate k 'x')

/-- Outcome of the conflict check between a bound local note and its remote
document. -/
inductive SyncDecision where
  | pull : SyncDecision
  | noop : SyncDecision
deriving DecidableEq, Repr

/-- The conflict resolver, from the update check of `syncList`:
`if (remoteTime > localTime + 2000)` pull the remote copy, otherwise do
nothing.  Both timestamps are milliseconds UTC. -/
def resolve (localTime remoteTime : Int) : SyncDecision :=
  if remoteTime > localTime + 2000 then SyncDecision.pull else SyncDecision.noop

/-- Title stored when importing a remote document: `remote.title || 'Untitled'`. -/
def importTitle (t : String) : String :=
  if t = "" then "Untitled" else t

/-- Result of the upload loop: the in-memory local list after the loop, the
documents created on the remote store, the next remote id counter, and the
trace. -/
structure PushRes where
  mem : List LocalNote
  docs : List RemoteDoc
  nextPb : Nat
  ops : List Op
deriving DecidableEq, Repr

/-- One iteration of the upload loop of `syncList` for one local note:
if the note has a falsy `pb_id`, flatten its content, create a remote
document, persist the returned id (`update_note_pb_id`) and record it on the
in-memory note object.  The whole body sits in a per-note `try`/`catch`, so a
failing create leaves everything unchanged and a failing bind keeps the
created document but leaves the note unbound. -/
def pushNote (env : SyncEnv) (owner : String) (n : LocalNote) (nextPb : Nat) :
    PushRes :=
  if jsFalsy n.pb_id then
    if env.createFails n.id then ⟨[n], [], nextPb, []⟩
    else
      let doc : RemoteDoc :=
        { id := genId nextPb, title := n.title,
          content := flattenContent n.content, updated := env.now, owner := owner }
      if env.bindFails n.id then
        ⟨[n], [doc], nextPb + 1,
         [Op.createRemote n.id doc.id doc.title doc.content owner]⟩
      else
        ⟨[{ n with pb_id := some doc.id }], [doc], nextPb + 1,
         [Op.createRemote n.id doc.id doc.title doc.content owner,
          Op.bindPbId n.id doc.id]⟩
  else ⟨[n], [], nextPb, []⟩

/-- The upload loop of `syncList` over the fetched local list, in order. -/
def pushPhase (env : SyncEnv) (owner : String) :
    List LocalNote → Nat → PushRes
  | [], nextPb => ⟨[], [], nextPb, []⟩
  | n :: rest, nextPb =>
    let step := pushNote env owner n nextPb
    let restRes := pushPhase env owner rest step.nextPb
    ⟨step.mem ++ restRes.mem, step.docs ++ restRes.docs,
     restRes.nextPb, step.ops ++ restRes.ops⟩

/-- The download loop of `syncList` over the fetched remote list, in order.
`mem` is the in-memory local list produced by the upload loop (the loop's
`localNotes.find(...)` runs against it and it is not changed here); `db` is
the local note table, to which imports append and on which conflict updates
overwrite title/content (stamping `updated_at` with the current time).
There is no per-iteration `catch`: a failing `import_note_from_pb` or
`update_note` aborts the remaining iterations (the outer handler catches
it).  Returns the final table, the next local id, the trace, and whether the
loop aborted. -/
structure PullRes where
  db : List LocalNote
  nextLocal : Nat
  ops : List Op
  aborted : Bool
deriving DecidableEq, Repr

def pullPhase (env : SyncEnv) (mem : List LocalNote) :
    List RemoteDoc → List LocalNote → Nat → PullRes
  | [], db, nextLocal => ⟨db, nextLocal, [], false⟩
  | r :: rest, db, nextLocal =>
    match mem.find? (fun n => decide (n.pb_id = some r.id)) with
    | none =>
      if env.importFails r.id then ⟨db, nextLocal, [], true⟩
      else
        let imported : LocalNote :=
          { id := nextLocal, title := importTitle r.title, content := r.content,
            updated_at := r.updated, pb_id := some r.id }
        let restRes := pullPhase env mem rest (db ++ [imported]) (nextLocal + 1)
        ⟨restRes.db, restRes.nextLocal,
         Op.importLocal nextLocal r.id (importTitle r.title) r.content r.updated
           :: restRes.ops,
         restRes.aborted⟩
    | some localMatch =>
      match resolve localMatch.updated_at r.updated with
      | SyncDecision.pull =>
        if env.updateFails localMatch.id then ⟨db, nextLocal, [], true⟩
        else
          let db2 := db.map (fun n =>
            if n.id = localMatch.id then
              { n with title := r.title, content := r.content, updated_at := env.now }
            else n)
          let restRes := pullPhase env mem rest db2 nextLocal
          ⟨restRes.db, restRes.nextLocal,
           Op.updateLocal localMatch.id r.title r.content :: restRes.ops,
           restRes.aborted⟩
      | SyncDecision.noop => pullPhase env mem rest db nextLocal

/-- One reconciliation pass, `syncList` of `usePocketBaseSync`.
If the single-flight flag is set the call returns at once with no
operations.  Otherwise the flag is set, the two lists are fetched, the
upload loop runs (per-note failures contained), the download loop runs
(a failure aborts its remainder), `refreshNotes()` fires unless the pass
aborted, the outer `catch` converts any abort into a log entry, and the
`finally` clears the flag.  The function is total: no failure escapes to
the caller. -/
def syncList (env : SyncEnv) (owner : String) (st : SyncState) :
    SyncState × List Op :=
  if st.isSyncing then (st, [])
  else
    let push := pushPhase env owner st.locals st.nextPbId
    let pull := pullPhase env push.mem st.remotes push.mem st.nextLocalId
    let refreshOps : List Op := if pull.aborted then [] else [Op.refresh]
    ({ locals := pull.db, remotes := st.remotes ++ push.docs,
       nextPbId := push.nextPb, nextLocalId := pull.nextLocal, isSyncing := false },
     push.ops ++ pull.ops ++ refreshOps)

/-- Actions delivered by the PocketBase realtime subscription. -/
inductive RtAction where
  | create : RtAction
  | update : RtAction
  | delete : RtAction
deriving DecidableEq, Repr

/-- The realtime subscription handler of `usePocketBaseSync`: `create` and
`update` events trigger a reconciliation pass; a `delete` event calls the
local store directly (`delete_note_by_pb_id`, modelled from the spec: the
Tauri command is not in the frontend sources; per the local store contract
it removes the note bound to the given remote id and is a no-op without
error when none is bound) and then signals a list refresh. -/
def realtimeHandler (env : SyncEnv) (owner : String) (st : SyncState)
    (action : RtAction) (recordId : String) : SyncState × List Op :=
  match action with
  | RtAction.create => syncList env owner st
  | RtAction.update => syncList env owner st
  | RtAction.delete =>
    ({ st with locals := st.locals.filter (fun n => !decide (n.pb_id = some recordId)) },
     [Op.deleteLocalByPbReq recordId, Op.refresh])

/-- The `onyx:deleted-note` listener of `usePocketBaseSync`: given the
event's `pbId` detail, issue exactly one remote delete call when the id is
truthy; a failing call is caught and logged, nothing is retried, and the
local table is untouched either way. -/
def handleLocalDelete (env : SyncEnv) (st : SyncState) (detailPbId : Option String) :
    SyncState × List Op :=
  if jsFalsy detailPbId then (st, [])
  else
    match detailPbId with
    | some pbId =>
      if env.remoteDeleteFails then (st, [Op.deleteRemoteReq pbId])
      else ({ st with remotes := st.remotes.filter (fun d => !decide (d.id = pbId)) },
            [Op.deleteRemoteReq pbId])
    | none => (st, [])

/-- The application's delete path, `handleDeleteNote` in the tab container:
it invokes the local `delete_note` command and refreshes the list.  No code
in the sources dispatches the `onyx:deleted-note` event, so the remote
delete listener is never reached from here. -/
def appDeleteFlow (st : SyncState) (id : Nat) : SyncState × List Op :=
  ({ st with locals := st.locals.filter (fun n => !decide (n.id = id)) },
   [Op.deleteLocal id, Op.refresh])

/-- JSON text of the local storage wrapper written by the editor:
`JSON.stringify([{id:'main',type:'p',content: contentVal}])`. -/
def wrapContent (contentVal : String) : String :=
  "[\x7b\"id\":\"main\",\"type\":\"p\",\"content\":" ++ jsonQuote contentVal ++ "\x7d]"

/-- The editor's save path, `saveToDatabase` in `Editor.tsx`: wrap the raw
text in the legacy JSON wrapper and save it locally (`update_note`), then,
when online, look up the bound PocketBase id (from the in-memory ref, or
lazily from the local store when the ref is falsy) and, only if a truthy id
is found, issue an update of the existing remote document with the raw
title and content; otherwise no remote call is made.  Returns the new
state, the trace and the new value of the `pbIdRef` ref. -/
def saveToDatabase (env : SyncEnv) (st : SyncState) (online : Bool)
    (pbIdRef : Option String) (id : Nat) (titleVal contentVal : String) :
    SyncState × List Op × Option String :=
  if id = 0 then (st, [], pbIdRef)
  else
    let contentJson := wrapContent contentVal
    let db := st.locals.map (fun n =>
      if n.id = id then
        { n with title := titleVal, content := contentJson, updated_at := env.now }
      else n)
    let localOps := [Op.updateLocal id titleVal contentJson]
    if online then
      let pbId :=
        if jsFalsy pbIdRef then
          match db.find? (fun n => decide (n.id = id)) with
          | some found => if jsFalsy found.pb_id then pbIdRef else found.pb_id
          | none => pbIdRef
        else pbIdRef
      match pbId with
      | some pid =>
        if pid = "" then ({ st with locals := db }, localOps, pbId)
        else
          let remotes2 :=
            if env.remoteUpdateFails pid then st.remotes
            else st.remotes.map (fun d =>
              if d.id = pid then
                { d with title := titleVal, content := contentVal, updated := env.now }
              else d)
          ({ st with locals := db, remotes := remotes2 },
           localOps ++ [Op.updateRemoteReq pid titleVal contentVal], pbId)
      | none => ({ st with locals := db }, localOps, pbId)
    else ({ st with locals := db }, localOps, pbIdRef)

/-- Is this operation a remote-document creation for local note `i`? -/
def isCreateFor (i : Nat) : Op → Bool
  | Op.createRemote lid _ _ _ _ => decide (lid = i)
  | _ => false

/-- Is this operation a binding of a remote id onto local note `i`? -/
def isBindFor (i : Nat) : Op → Bool
  | Op.bindPbId lid _ => decide (lid = i)
  | _ => false

/-- Is this operation a remote-document creation? -/
def isCreateOp : Op → Bool
  | Op.createRemote _ _ _ _ _ => true
  | _ => false

/-- Is this operation a binding? -/
def isBindOp : Op → Bool
  | Op.bindPbId _ _ => true
  | _ => false

/-- Is this operation a local import of a remote document? -/
def isImportOp : Op → Bool
  | Op.importLocal _ _ _ _ _ => true
  | _ => false

/-- Is this operation a local import of the remote document `rid`? -/
def isImportForPb (rid : String) : Op → Bool
  | Op.importLocal _ pid _ _ _ => decide (pid = rid)
  | _ => false

/-- Is this operation a delete, on either store? -/
def isDeleteOp : Op → Bool
  | Op.deleteRemoteReq _ => true
  | Op.deleteLocalByPbReq _ => true
  | Op.deleteLocal _ => true
  | _ => false

/-- Is this operation a call to the remote store? -/
def isRemoteReq : Op → Bool
  | Op.createRemote _ _ _ _ _ => true
  | Op.updateRemoteReq _ _ _ => true
  | Op.deleteRemoteReq _ => true
  | _ => false

/-- Every call of the environment succeeds. -/
def noFailures (env : SyncEnv) : Prop :=
  (∀ i, env.createFails i = false) ∧ (∀ i, env.bindFails i = false) ∧
  (∀ s, env.importFails s = false) ∧ (∀ i, env.updateFails i = false)

theorem okEnv_noFailures (now : Int) : noFailures (okEnv now) :=
  ⟨fun _ => rfl, fun _ => rfl, fun _ => rfl, fun _ => rfl⟩

theorem genId_ne_empty (k : Nat) : genId k ≠ "" := by
  intro h
  have h2 := congrArg String.data h
  simp [genId] at h2

theorem jsFalsy_genId (k : Nat) : jsFalsy (some (genId k)) = false := by
  simp [jsFalsy, genId_ne_empty k]

theorem flattenContent_not_bracket (s : String)
    (h : startsBracket (jsTrim s) = false) : flattenContent s = s := by
  unfold flattenContent
  simp [h]

theorem pushNote_cases (env : SyncEnv) (owner : String) (n : LocalNote) (next : Nat) :
    (jsFalsy n.pb_id = false ∧ pushNote env owner n next = ⟨[n], [], next, []⟩) ∨
    (jsFalsy n.pb_id = true ∧ env.createFails n.id = true ∧
      pushNote env owner n next = ⟨[n], [], next, []⟩) ∨
    (jsFalsy n.pb_id = true ∧ env.createFails n.id = false ∧ env.bindFails n.id = true ∧
      pushNote env owner n next =
        ⟨[n], [⟨genId next, n.title, flattenContent n.content, env.now, owner⟩], next + 1,
         [Op.createRemote n.id (genId next) n.title (flattenContent n.content) owner]⟩) ∨
    (jsFalsy n.pb_id = true ∧ env.createFails n.id = false ∧ env.bindFails n.id = false ∧
      pushNote env owner n next =
        ⟨[{ n with pb_id := some (genId next) }],
         [⟨genId next, n.title, flattenContent n.content, env.now, owner⟩], next + 1,
         [Op.createRemote n.id (genId next) n.title (flattenContent n.content) owner,
          Op.bindPbId n.id (genId next)]⟩) := by
  unfold pushNote
  split_ifs with h1 h2 h3 <;> simp_all

theorem pushPhase_nil (env : SyncEnv) (owner : String) (next : Nat) :
    pushPhase env owner [] next = ⟨[], [], next, []⟩ := rfl

theorem pushPhase_cons (env : SyncEnv) (owner : String) (n : LocalNote)
    (rest : List LocalNote) (next : Nat) :
    pushPhase env owner (n :: rest) next =
      ⟨(pushNote env owner n next).mem ++
         (pushPhase env owner rest (pushNote env owner n next).nextPb).mem,
       (pushNote env owner n next).docs ++
         (pushPhase env owner rest (pushNote env owner n next).nextPb).docs,
       (pushPhase env owner rest (pushNote env owner n next).nextPb).nextPb,
       (pushNote env owner n next).ops ++
         (pushPhase env owner rest (pushNote env owner n next).nextPb).ops⟩ := rfl

theorem pushPhase_nextPb_mono (env : SyncEnv) (owner : String) (l : List LocalNote) :
    ∀ next : Nat, next ≤ (pushPhase env owner l next).nextPb := by
  induction l with
  | nil => intro next; simp [pushPhase_nil]
  | cons n rest ih =>
    intro next
    rcases pushNote_cases env owner n next with ⟨_, he⟩ | ⟨_, _, he⟩ | ⟨_, _, _, he⟩ | ⟨_, _, _, he⟩ <;>
      rw [pushPhase_cons, he] <;> dsimp only <;>
      first
        | exact ih next
        | exact Nat.le_trans (Nat.le_succ next) (ih (next + 1))

theorem pushPhase_nextPb_le (env : SyncEnv) (owner : String) (l : List LocalNote) :
    ∀ next : Nat, (pushPhase env owner l next).nextPb ≤ next + l.length := by
  induction l with
  | nil => intro next; simp [pushPhase_nil]
  | cons n rest ih =>
    intro next
    rcases pushNote_cases env owner n next with ⟨_, he⟩ | ⟨_, _, he⟩ | ⟨_, _, _, he⟩ | ⟨_, _, _, he⟩ <;>
      rw [pushPhase_cons, he] <;> dsimp only <;> simp only [List.length_cons] <;>
      first
        | exact Nat.le_trans (ih next) (by omega)
        | exact Nat.le_trans (ih (next + 1)) (by omega)

theorem pushPhase_mem_spec (env : SyncEnv) (owner : String) (l : List LocalNote) :
    ∀ (next : Nat) (m : LocalNote), m ∈ (pushPhase env owner l next).mem →
      ∃ n ∈ l, ∃ pb : Option String,
        m = { n with pb_id := pb } ∧
        (pb = n.pb_id ∨
          ∃ k, next ≤ k ∧ k < (pushPhase env owner l next).nextPb ∧ pb = some (genId k)) := by
  induction l with
  | nil => intro next m hm; simp [pushPhase_nil] at hm
  | cons n rest ih =>
    intro next m hm
    rcases pushNote_cases env owner n next with ⟨h1, he⟩ | ⟨h1, h2, he⟩ | ⟨h1, h2, h3, he⟩ | ⟨h1, h2, h3, he⟩ <;>
      rw [pushPhase_cons, he] at hm ⊢ <;> dsimp only at hm ⊢ <;>
      simp only [List.singleton_append, List.mem_cons] at hm
    · rcases hm with rfl | hm
      · exact ⟨m, List.mem_cons_self m rest, m.pb_id, rfl, Or.inl rfl⟩
      · rcases ih next m hm with ⟨n2, hn2, pb, hpb, hshape⟩
        refine ⟨n2, List.mem_cons_of_mem n hn2, pb, hpb, ?_⟩
        rcases hshape with h | ⟨k, hk1, hk2, hk3⟩
        · exact Or.inl h
        · exact Or.inr ⟨k, hk1, hk2, hk3⟩
    · rcases hm with rfl | hm
      · exact ⟨m, List.mem_cons_self m rest, m.pb_id, rfl, Or.inl rfl⟩
      · rcases ih next m hm with ⟨n2, hn2, pb, hpb, hshape⟩
        refine ⟨n2, List.mem_cons_of_mem n hn2, pb, hpb, ?_⟩
        rcases hshape with h | ⟨k, hk1, hk2, hk3⟩
        · exact Or.inl h
        · exact Or.inr ⟨k, hk1, hk2, hk3⟩
    · rcases hm with rfl | hm
      · exact ⟨m, List.mem_cons_self m rest, m.pb_id, rfl, Or.inl rfl⟩
      · rcases ih (next + 1) m hm with ⟨n2, hn2, pb, hpb, hshape⟩
        refine ⟨n2, List.mem_cons_of_mem n hn2, pb, hpb, ?_⟩
        rcases hshape with h | ⟨k, hk1, hk2, hk3⟩
        · exact Or.inl h
        · exact Or.inr ⟨k, by omega, hk2, hk3⟩
    · rcases hm with rfl | hm
      · refine ⟨n, List.mem_cons_self n rest, some (genId next), rfl,
          Or.inr ⟨next, le_refl next, ?_, rfl⟩⟩
        exact Nat.lt_of_lt_of_le (Nat.lt_succ_self next)
          (pushPhase_nextPb_mono env owner rest (next + 1))
      · rcases ih (next + 1) m hm with ⟨n2, hn2, pb, hpb, hshape⟩
        refine ⟨n2, List.mem_cons_of_mem n hn2, pb, hpb, ?_⟩
        rcases hshape with h | ⟨k, hk1, hk2, hk3⟩
        · exact Or.inl h
        · exact Or.inr ⟨k, by omega, hk2, hk3⟩

theorem pushPhase_mem_ids (env : SyncEnv) (owner : String) (l : List LocalNote) :
    ∀ next : Nat, (pushPhase env owner l next).mem.map LocalNote.id = l.map LocalNote.id := by
  induction l with
  | nil => intro next; rfl
  | cons n rest ih =>
    intro next
    rcases pushNote_cases env owner n next with ⟨h1, he⟩ | ⟨h1, h2, he⟩ | ⟨h1, h2, h3, he⟩ | ⟨h1, h2, h3, he⟩ <;>
      rw [pushPhase_cons, he] <;> simp [ih]

/-- Local-update operation test. -/
def isUpdateLocalOp : Op → Bool
  | Op.updateLocal _ _ _ => true
  | _ => false

theorem pushPhase_ops_kinds (env : SyncEnv) (owner : String) (l : List LocalNote) :
    ∀ next : Nat, ∀ op ∈ (pushPhase env owner l next).ops,
      isCreateOp op = true ∨ isBindOp op = true := by
  induction l with
  | nil => intro next op hop; simp [pushPhase_nil] at hop
  | cons n rest ih =>
    intro next op hop
    rcases pushNote_cases env owner n next with ⟨h1, he⟩ | ⟨h1, h2, he⟩ | ⟨h1, h2, h3, he⟩ | ⟨h1, h2, h3, he⟩ <;>
      rw [pushPhase_cons, he] at hop <;> dsimp only at hop <;>
      rw [List.mem_append] at hop
    · rcases hop with hop | hop
      · simp at hop
      · exact ih next op hop
    · rcases hop with hop | hop
      · simp at hop
      · exact ih next op hop
    · rcases hop with hop | hop
      · rw [List.mem_singleton] at hop
        subst hop
        exact Or.inl rfl
      · exact ih (next + 1) op hop
    · rcases hop with hop | hop
      · rcases List.mem_cons.mp hop with rfl | hop2
        · exact Or.inl rfl
        · rw [List.mem_singleton] at hop2
          subst hop2
          exact Or.inr rfl
      · exact ih (next + 1) op hop

theorem pullPhase_ops_kinds (env : SyncEnv) (mem : List LocalNote) :
    ∀ (remotes : List RemoteDoc) (db : List LocalNote) (nl : Nat),
      ∀ op ∈ (pullPhase env mem remotes db nl).ops,
        isImportOp op = true ∨ isUpdateLocalOp op = true := by
  intro remotes
  induction remotes with
  | nil => intro db nl op hop; simp [pullPhase] at hop
  | cons r rest ih =>
    intro db nl op hop
    rw [pullPhase] at hop
    rcases hfind : mem.find? (fun n => decide (n.pb_id = some r.id)) with _ | localMatch <;>
      rw [hfind] at hop <;> dsimp only at hop
    · by_cases hf : env.importFails r.id
      · rw [if_pos hf] at hop
        simp at hop
      · rw [if_neg hf] at hop
        dsimp only at hop
        rcases List.mem_cons.mp hop with rfl | hop2
        · exact Or.inl rfl
        · exact ih _ _ op hop2
    · rcases hres : resolve localMatch.updated_at r.updated with _ | _ <;>
        rw [hres] at hop <;> dsimp only at hop
      · by_cases hf : env.updateFails localMatch.id
        · rw [if_pos hf] at hop
          simp at hop
        · rw [if_neg hf] at hop
          dsimp only at hop
          rcases List.mem_cons.mp hop with rfl | hop2
          · exact Or.inr rfl
          · exact ih _ _ op hop2
      · exact ih _ _ op hop

theorem createOrBind_not_delete (op : Op)
    (h : isCreateOp op = true ∨ isBindOp op = true) : isDeleteOp op = false := by
  cases op <;> simp_all [isCreateOp, isBindOp, isDeleteOp]

theorem createOrBind_not_import (op : Op)
    (h : isCreateOp op = true ∨ isBindOp op = true) : isImportOp op = false := by
  cases op <;> simp_all [isCreateOp, isBindOp, isImportOp]

theorem importOrUpdate_not_delete (op : Op)
    (h : isImportOp op = true ∨ isUpdateLocalOp op = true) : isDeleteOp op = false := by
  cases op <;> simp_all [isImportOp, isUpdateLocalOp, isDeleteOp]

theorem importOrUpdate_not_create (op : Op)
    (h : isImportOp op = true ∨ isUpdateLocalOp op = true) : isCreateOp op = false := by
  cases op <;> simp_all [isImportOp, isUpdateLocalOp, isCreateOp]

theorem pushNote_countP_other (env : SyncEnv) (owner : String) (n : LocalNote)
    (next : Nat) (i : Nat) (h : n.id ≠ i) :
    (pushNote env owner n next).ops.countP (isCreateFor i) = 0 ∧
    (pushNote env owner n next).ops.countP (isBindFor i) = 0 := by
  rcases pushNote_cases env owner n next with ⟨_, he⟩ | ⟨_, _, he⟩ | ⟨_, _, _, he⟩ | ⟨_, _, _, he⟩ <;>
    rw [he] <;>
    simp [isCreateFor, isBindFor, List.countP_cons, List.countP_nil, h]

theorem pushPhase_countP_notmem (env : SyncEnv) (owner : String) (l : List LocalNote) :
    ∀ (next : Nat) (i : Nat), i ∉ l.map LocalNote.id →
      (pushPhase env owner l next).ops.countP (isCreateFor i) = 0 ∧
      (pushPhase env owner l next).ops.countP (isBindFor i) = 0 := by
  induction l with
  | nil => intro next i _; simp [pushPhase_nil]
  | cons n rest ih =>
    intro next i hi
    rw [List.map_cons, List.mem_cons] at hi
    push_neg at hi
    have hni : n.id ≠ i := fun h => hi.1 h.symm
    have hhead := pushNote_countP_other env owner n next i hni
    have htail := ih (pushNote env owner n next).nextPb i hi.2
    rw [pushPhase_cons]
    dsimp only
    rw [List.countP_append, List.countP_append, hhead.1, hhead.2, htail.1, htail.2]
    exact ⟨rfl, rfl⟩

theorem pushPhase_once (env : SyncEnv) (owner : String) (l : List LocalNote) :
    ∀ next : Nat, (l.map LocalNote.id).Nodup →
      ∀ n ∈ l, jsFalsy n.pb_id = true → env.createFails n.id = false →
        env.bindFails n.id = false →
      ∃ pid : String,
        (pushPhase env owner l next).ops.countP (isCreateFor n.id) = 1 ∧
        (pushPhase env owner l next).ops.countP (isBindFor n.id) = 1 ∧
        Op.createRemote n.id pid n.title (flattenContent n.content) owner
          ∈ (pushPhase env owner l next).ops ∧
        Op.bindPbId n.id pid ∈ (pushPhase env owner l next).ops ∧
        { n with pb_id := some pid } ∈ (pushPhase env owner l next).mem := by
  induction l with
  | nil => intro next _ n hn; simp at hn
  | cons n0 rest ih =>
    intro next hnodup n hn hfal hcf hbf
    rw [List.map_cons, List.nodup_cons] at hnodup
    rcases List.mem_cons.mp hn with rfl | hn2
    · rcases pushNote_cases env owner n next with ⟨h1, he⟩ | ⟨h1, h2, he⟩ | ⟨h1, h2, h3, he⟩ | ⟨h1, h2, h3, he⟩
      · rw [hfal] at h1; cases h1
      · rw [hcf] at h2; cases h2
      · rw [hbf] at h3; cases h3
      · refine ⟨genId next, ?_⟩
        have htail := pushPhase_countP_notmem env owner rest
          (pushNote env owner n next).nextPb n.id hnodup.1
        rw [he] at htail
        rw [pushPhase_cons, he]
        dsimp only at htail ⊢
        refine ⟨?_, ?_, ?_, ?_, ?_⟩
        · rw [List.countP_append, htail.1]
          simp [isCreateFor, isBindFor, List.countP_cons, List.countP_nil]
        · rw [List.countP_append, htail.2]
          simp [isCreateFor, isBindFor, List.countP_cons, List.countP_nil]
        · exact List.mem_append_left _ (List.mem_cons_self _ _)
        · exact List.mem_append_left _ (List.mem_cons_of_mem _ (List.mem_singleton.mpr rfl))
        · exact List.mem_append_left _ (List.mem_singleton.mpr rfl)
    · have hne : n0.id ≠ n.id := by
        intro h
        exact hnodup.1 (h ▸ List.mem_map_of_mem LocalNote.id hn2)
      have hhead := pushNote_countP_other env owner n0 next n.id hne
      rcases ih (pushNote env owner n0 next).nextPb hnodup.2 n hn2 hfal hcf hbf with
        ⟨pid, hc1, hb1, hcm, hbm, hmem⟩
      refine ⟨pid, ?_, ?_, ?_, ?_, ?_⟩
      · rw [pushPhase_cons]
        dsimp only
        rw [List.countP_append, hhead.1, hc1]
      · rw [pushPhase_cons]
        dsimp only
        rw [List.countP_append, hhead.2, hb1]
      · rw [pushPhase_cons]
        exact List.mem_append_right _ hcm
      · rw [pushPhase_cons]
        exact List.mem_append_right _ hbm
      · rw [pushPhase_cons]
        exact List.mem_append_right _ hmem

theorem pushPhase_createFail (env : SyncEnv) (owner : String) (l : List LocalNote) :
    ∀ next : Nat, (l.map LocalNote.id).Nodup →
      ∀ n ∈ l, env.createFails n.id = true →
      (pushPhase env owner l next).ops.countP (isCreateFor n.id) = 0 ∧
      (pushPhase env owner l next).ops.countP (isBindFor n.id) = 0 ∧
      n ∈ (pushPhase env owner l next).mem := by
  induction l with
  | nil => intro next _ n hn; simp at hn
  | cons n0 rest ih =>
    intro next hnodup n hn hcf
    rw [List.map_cons, List.nodup_cons] at hnodup
    rcases List.mem_cons.mp hn with rfl | hn2
    · have htail := pushPhase_countP_notmem env owner rest
        (pushNote env owner n next).nextPb n.id hnodup.1
      have hself : (pushNote env owner n next) = ⟨[n], [], next, []⟩ := by
        rcases pushNote_cases env owner n next with ⟨h1, he⟩ | ⟨h1, h2, he⟩ | ⟨h1, h2, h3, he⟩ | ⟨h1, h2, h3, he⟩
        · exact he
        · exact he
        · rw [hcf] at h2; cases h2
        · rw [hcf] at h2; cases h2
      rw [hself] at htail
      rw [pushPhase_cons, hself]
      dsimp only at htail ⊢
      refine ⟨?_, ?_, ?_⟩
      · rw [List.countP_append, htail.1]
        simp
      · rw [List.countP_append, htail.2]
        simp
      · exact List.mem_append_left _ (List.mem_singleton.mpr rfl)
    · have hne : n0.id ≠ n.id := by
        intro h
        exact hnodup.1 (h ▸ List.mem_map_of_mem LocalNote.id hn2)
      have hhead := pushNote_countP_other env owner n0 next n.id hne
      rcases ih (pushNote env owner n0 next).nextPb hnodup.2 n hn2 hcf with ⟨hc1, hb1, hmem⟩
      rw [pushPhase_cons]
      dsimp only
      rw [List.countP_append, List.countP_append, hhead.1, hhead.2, hc1, hb1]
      exact ⟨rfl, rfl, List.mem_append_right _ hmem⟩

theorem pushPhase_all_bound (env : SyncEnv) (owner : String) (l : List LocalNote) :
    ∀ next : Nat, (∀ n ∈ l, jsFalsy n.pb_id = false) →
      pushPhase env owner l next = ⟨l, [], next, []⟩ := by
  induction l with
  | nil => intro next _; rfl
  | cons n rest ih =>
    intro next hall
    have h1 : jsFalsy n.pb_id = false := hall n (List.mem_cons_self n rest)
    have he : pushNote env owner n next = ⟨[n], [], next, []⟩ := by
      unfold pushNote
      rw [h1]
      rfl
    rw [pushPhase_cons, he]
    dsimp only
    rw [ih next (fun m hm => hall m (List.mem_cons_of_mem n hm))]
    rfl

theorem pushPhase_mem_bound (env : SyncEnv) (owner : String) (l : List LocalNote)
    (hc : ∀ i, env.createFails i = false) (hb : ∀ i, env.bindFails i = false) :
    ∀ next : Nat, ∀ m ∈ (pushPhase env owner l next).mem, jsFalsy m.pb_id = false := by
  induction l with
  | nil => intro next m hm; simp [pushPhase_nil] at hm
  | cons n rest ih =>
    intro next m hm
    rcases pushNote_cases env owner n next with ⟨h1, he⟩ | ⟨h1, h2, he⟩ | ⟨h1, h2, h3, he⟩ | ⟨h1, h2, h3, he⟩
    · rw [pushPhase_cons, he] at hm
      dsimp only at hm
      rcases List.mem_cons.mp (by simpa using hm) with rfl | hm2
      · exact h1
      · exact ih _ m hm2
    · rw [hc n.id] at h2; cases h2
    · rw [hb n.id] at h3; cases h3
    · rw [pushPhase_cons, he] at hm
      dsimp only at hm
      rcases List.mem_cons.mp (by simpa using hm) with rfl | hm2
      · exact jsFalsy_genId next
      · exact ih _ m hm2

theorem pushPhase_docs_bound (env : SyncEnv) (owner : String) (l : List LocalNote)
    (hc : ∀ i, env.createFails i = false) (hb : ∀ i, env.bindFails i = false) :
    ∀ next : Nat, ∀ d ∈ (pushPhase env owner l next).docs,
      ∃ m ∈ (pushPhase env owner l next).mem, m.pb_id = some d.id := by
  induction l with
  | nil => intro next d hd; simp [pushPhase_nil] at hd
  | cons n rest ih =>
    intro next d hd
    rcases pushNote_cases env owner n next with ⟨h1, he⟩ | ⟨h1, h2, he⟩ | ⟨h1, h2, h3, he⟩ | ⟨h1, h2, h3, he⟩
    · rw [pushPhase_cons, he] at hd ⊢
      dsimp only at hd ⊢
      rw [List.nil_append] at hd
      rcases ih _ d hd with ⟨m, hm, hpb⟩
      exact ⟨m, List.mem_append_right _ hm, hpb⟩
    · rw [hc n.id] at h2; cases h2
    · rw [hb n.id] at h3; cases h3
    · rw [pushPhase_cons, he] at hd ⊢
      dsimp only at hd ⊢
      rcases List.mem_cons.mp (by simpa using hd) with rfl | hd2
      · exact ⟨{ n with pb_id := some (genId next) },
          List.mem_append_left _ (List.mem_singleton.mpr rfl), rfl⟩
      · rcases ih _ d hd2 with ⟨m, hm, hpb⟩
        exact ⟨m, List.mem_append_right _ hm, hpb⟩

theorem pushPhase_bind_mem (env : SyncEnv) (owner : String) (l : List LocalNote) :
    ∀ (next : Nat) (i : Nat) (pid : String),
      Op.bindPbId i pid ∈ (pushPhase env owner l next).ops →
      ∃ m ∈ (pushPhase env owner l next).mem, m.pb_id = some pid := by
  induction l with
  | nil => intro next i pid h; simp [pushPhase_nil] at h
  | cons n rest ih =>
    intro next i pid h
    rcases pushNote_cases env owner n next with ⟨h1, he⟩ | ⟨h1, h2, he⟩ | ⟨h1, h2, h3, he⟩ | ⟨h1, h2, h3, he⟩ <;>
      rw [pushPhase_cons, he] at h ⊢ <;> dsimp only at h ⊢ <;>
      rw [List.mem_append] at h
    · rcases h with h | h
      · simp at h
      · rcases ih _ i pid h with ⟨m, hm, hpb⟩
        exact ⟨m, List.mem_append_right _ hm, hpb⟩
    · rcases h with h | h
      · simp at h
      · rcases ih _ i pid h with ⟨m, hm, hpb⟩
        exact ⟨m, List.mem_append_right _ hm, hpb⟩
    · rcases h with h | h
      · simp at h
      · rcases ih _ i pid h with ⟨m, hm, hpb⟩
        exact ⟨m, List.mem_append_right _ hm, hpb⟩
    · rcases h with h | h
      · rcases List.mem_cons.mp h with heq | h2
        · exact absurd heq (by simp)
        · rw [List.mem_singleton] at h2
          injection h2 with hii hpp
          subst hpp
          exact ⟨{ n with pb_id := some (genId next) },
            List.mem_append_left _ (List.mem_singleton.mpr rfl), rfl⟩
      · rcases ih _ i pid h with ⟨m, hm, hpb⟩
        exact ⟨m, List.mem_append_right _ hm, hpb⟩

theorem pullPhase_no_abort (env : SyncEnv) (mem : List LocalNote)
    (hi : ∀ s, env.importFails s = false) (hu : ∀ i, env.updateFails i = false) :
    ∀ (remotes : List RemoteDoc) (db : List LocalNote) (nl : Nat),
      (pullPhase env mem remotes db nl).aborted = false := by
  intro remotes
  induction remotes with
  | nil => intro db nl; rfl
  | cons r rest ih =>
    intro db nl
    rw [pullPhase]
    rcases hfind : mem.find? (fun n => decide (n.pb_id = some r.id)) with _ | localMatch <;>
      rw [hfind] <;> dsimp only
    · rw [hi r.id]
      simp only [Bool.false_eq_true, if_false]
      exact ih _ _
    · rcases hres : resolve localMatch.updated_at r.updated with _ | _ <;> dsimp only
      · rw [hu localMatch.id]
        simp only [Bool.false_eq_true, if_false]
        exact ih _ _
      · exact ih _ _

theorem pullPhase_import_zero_notmem (env : SyncEnv) (mem : List LocalNote) :
    ∀ (remotes : List RemoteDoc) (db : List LocalNote) (nl : Nat) (rid : String),
      rid ∉ remotes.map RemoteDoc.id →
      (pullPhase env mem remotes db nl).ops.countP (isImportForPb rid) = 0 := by
  intro remotes
  induction remotes with
  | nil => intro db nl rid _; rfl
  | cons r rest ih =>
    intro db nl rid hrid
    rw [List.map_cons, List.mem_cons] at hrid
    push_neg at hrid
    have hne : r.id ≠ rid := fun h => hrid.1 h.symm
    rw [pullPhase]
    rcases hfind : mem.find? (fun n => decide (n.pb_id = some r.id)) with _ | localMatch <;>
      rw [hfind] <;> dsimp only
    · by_cases hf : env.importFails r.id
      · rw [if_pos hf]
        rfl
      · rw [if_neg hf]
        dsimp only
        rw [List.countP_cons]
        have : isImportForPb rid (Op.importLocal nl r.id (importTitle r.title) r.content r.updated) = false := by
          simp [isImportForPb, hne]
        rw [this]
        simp only [Bool.false_eq_true, if_false, Nat.add_zero]
        exact ih _ _ rid hrid.2
    · rcases hres : resolve localMatch.updated_at r.updated with _ | _ <;> dsimp only
      · by_cases hf : env.updateFails localMatch.id
        · rw [if_pos hf]
          rfl
        · rw [if_neg hf]
          dsimp only
          rw [List.countP_cons]
          have : isImportForPb rid (Op.updateLocal localMatch.id r.title r.content) = false := rfl
          rw [this]
          simp only [Bool.false_eq_true, if_false, Nat.add_zero]
          exact ih _ _ rid hrid.2
      · exact ih _ _ rid hrid.2

theorem pullPhase_matched_no_import (env : SyncEnv) (mem : List LocalNote) :
    ∀ (remotes : List RemoteDoc) (db : List LocalNote) (nl : Nat) (rid : String),
      (∃ n ∈ mem, n.pb_id = some rid) →
      (pullPhase env mem remotes db nl).ops.countP (isImportForPb rid) = 0 := by
  intro remotes
  induction remotes with
  | nil => intro db nl rid _; rfl
  | cons r rest ih =>
    intro db nl rid hmatch
    rw [pullPhase]
    rcases hfind : mem.find? (fun n => decide (n.pb_id = some r.id)) with _ | localMatch <;>
      rw [hfind] <;> dsimp only
    · by_cases hf : env.importFails r.id
      · rw [if_pos hf]
        rfl
      · rw [if_neg hf]
        dsimp only
        rw [List.countP_cons]
        have hne : r.id ≠ rid := by
          intro h
          subst h
          rcases hmatch with ⟨n, hn, hpb⟩
          rw [List.find?_eq_none] at hfind
          exact absurd (by simpa using hpb) (by simpa using hfind n hn)
        have : isImportForPb rid (Op.importLocal nl r.id (importTitle r.title) r.content r.updated) = false := by
          simp [isImportForPb, hne]
        rw [this]
        simp only [Bool.false_eq_true, if_false, Nat.add_zero]
        exact ih _ _ rid hmatch
    · rcases hres : resolve localMatch.updated_at r.updated with _ | _ <;> dsimp only
      · by_cases hf : env.updateFails localMatch.id
        · rw [if_pos hf]
          rfl
        · rw [if_neg hf]
          dsimp only
          rw [List.countP_cons]
          have : isImportForPb rid (Op.updateLocal localMatch.id r.title r.content) = false := rfl
          rw [this]
          simp only [Bool.false_eq_true, if_false, Nat.add_zero]
          exact ih _ _ rid hmatch
      · exact ih _ _ rid hmatch

theorem pullPhase_import_once (env : SyncEnv) (mem : List LocalNote)
    (hi : ∀ s, env.importFails s = false) (hu : ∀ i, env.updateFails i = false) :
    ∀ (remotes : List RemoteDoc) (db : List LocalNote) (nl : Nat) (r : RemoteDoc),
      r ∈ remotes → (remotes.map RemoteDoc.id).Nodup →
      (∀ n ∈ mem, n.pb_id ≠ some r.id) →
      (pullPhase env mem remotes db nl).ops.countP (isImportForPb r.id) = 1 ∧
      ∃ lid, Op.importLocal lid r.id (importTitle r.title) r.content r.updated
        ∈ (pullPhase env mem remotes db nl).ops := by
  intro remotes
  induction remotes with
  | nil => intro db nl r hr; simp at hr
  | cons r0 rest ih =>
    intro db nl r hr hnodup hunmatched
    rw [List.map_cons, List.nodup_cons] at hnodup
    rcases List.mem_cons.mp hr with rfl | hr2
    · have hfind : mem.find? (fun n => decide (n.pb_id = some r.id)) = none := by
        rw [List.find?_eq_none]
        intro n hn
        simp [hunmatched n hn]
      rw [pullPhase, hfind]
      dsimp only
      rw [hi r.id]
      simp only [Bool.false_eq_true, if_false]
      constructor
      · rw [List.countP_cons]
        have hx : isImportForPb r.id
            (Op.importLocal nl r.id (importTitle r.title) r.content r.updated) = true := by
          simp [isImportForPb]
        rw [hx, pullPhase_import_zero_notmem env mem rest _ _ r.id hnodup.1]
        simp
      · exact ⟨nl, List.mem_cons_self _ _⟩
    · have hne : r0.id ≠ r.id := fun h => hnodup.1 (h ▸ List.mem_map_of_mem RemoteDoc.id hr2)
      rw [pullPhase]
      rcases hfind : mem.find? (fun n => decide (n.pb_id = some r0.id)) with _ | localMatch <;>
        rw [hfind] <;> dsimp only
      · rw [hi r0.id]
        simp only [Bool.false_eq_true, if_false]
        rcases ih _ _ r hr2 hnodup.2 hunmatched with ⟨hcount, lid, hmem2⟩
        constructor
        · rw [List.countP_cons]
          have hx : isImportForPb r.id
              (Op.importLocal nl r0.id (importTitle r0.title) r0.content r0.updated) = false := by
            simp [isImportForPb, hne]
          rw [hx, hcount]
          simp
        · exact ⟨lid, List.mem_cons_of_mem _ hmem2⟩
      · rcases hres : resolve localMatch.updated_at r0.updated with _ | _ <;> dsimp only
        · rw [hu localMatch.id]
          simp only [Bool.false_eq_true, if_false]
          rcases ih _ _ r hr2 hnodup.2 hunmatched with ⟨hcount, lid, hmem2⟩
          constructor
          · rw [List.countP_cons]
            have hx : isImportForPb r.id
                (Op.updateLocal localMatch.id r0.title r0.content) = false := rfl
            rw [hx, hcount]
            simp
          · exact ⟨lid, List.mem_cons_of_mem _ hmem2⟩
        · exact ih _ _ r hr2 hnodup.2 hunmatched

theorem pullPhase_all_matched (env : SyncEnv) (mem : List LocalNote) :
    ∀ (remotes : List RemoteDoc) (db : List LocalNote) (nl : Nat),
      (∀ r ∈ remotes, ∃ n ∈ mem, n.pb_id = some r.id) →
      (pullPhase env mem remotes db nl).ops.countP isImportOp = 0 := by
  intro remotes
  induction remotes with
  | nil => intro db nl _; rfl
  | cons r rest ih =>
    intro db nl hall
    rcases hfind : mem.find? (fun n => decide (n.pb_id = some r.id)) with _ | localMatch
    · exfalso
      rcases hall r (List.mem_cons_self r rest) with ⟨n, hn, hpb⟩
      rw [List.find?_eq_none] at hfind
      exact absurd (by simpa using hpb) (by simpa using hfind n hn)
    · rw [pullPhase, hfind]
      dsimp only
      rcases hres : resolve localMatch.updated_at r.updated with _ | _ <;> dsimp only
      · by_cases hf : env.updateFails localMatch.id
        · rw [if_pos hf]
          rfl
        · rw [if_neg hf]
          dsimp only
          rw [List.countP_cons]
          have hx : isImportOp (Op.updateLocal localMatch.id r.title r.content) = false := rfl
          rw [hx]
          simp only [Bool.false_eq_true, if_false, Nat.add_zero]
          exact ih _ _ (fun r2 h2 => hall r2 (List.mem_cons_of_mem r h2))
      · exact ih _ _ (fun r2 h2 => hall r2 (List.mem_cons_of_mem r h2))

theorem pullPhase_presence (env : SyncEnv) (mem : List LocalNote) :
    ∀ (remotes : List RemoteDoc) (db : List LocalNote) (nl : Nat) (pid : String),
      (∃ m ∈ db, m.pb_id = some pid) →
      ∃ m ∈ (pullPhase env mem remotes db nl).db, m.pb_id = some pid := by
  intro remotes
  induction remotes with
  | nil => intro db nl pid h; exact h
  | cons r rest ih =>
    intro db nl pid h
    rw [pullPhase]
    rcases hfind : mem.find? (fun n => decide (n.pb_id = some r.id)) with _ | localMatch <;>
      rw [hfind] <;> dsimp only
    · by_cases hf : env.importFails r.id
      · rw [if_pos hf]
        exact h
      · rw [if_neg hf]
        dsimp only
        apply ih
        rcases h with ⟨m, hm, hpb⟩
        exact ⟨m, List.mem_append_left _ hm, hpb⟩
    · rcases hres : resolve localMatch.updated_at r.updated with _ | _ <;> dsimp only
      · by_cases hf : env.updateFails localMatch.id
        · rw [if_pos hf]
          exact h
        · rw [if_neg hf]
          dsimp only
          apply ih
          rcases h with ⟨m, hm, hpb⟩
          refine ⟨(fun n => if n.id = localMatch.id then
              { n with title := r.title, content := r.content, updated_at := env.now }
            else n) m, List.mem_map_of_mem _ hm, ?_⟩
          by_cases hid : m.id = localMatch.id <;> simp [hid, hpb]
      · exact ih _ _ pid h

theorem pullPhase_covers (env : SyncEnv) (mem : List LocalNote)
    (hi : ∀ s, env.importFails s = false) (hu : ∀ i, env.updateFails i = false) :
    ∀ (remotes : List RemoteDoc) (db : List LocalNote) (nl : Nat),
      (∀ pid, (∃ n ∈ mem, n.pb_id = some pid) → ∃ m ∈ db, m.pb_id = some pid) →
      ∀ r ∈ remotes, ∃ m ∈ (pullPhase env mem remotes db nl).db, m.pb_id = some r.id := by
  intro remotes
  induction remotes with
  | nil => intro db nl _ r hr; simp at hr
  | cons r0 rest ih =>
    intro db nl hsub r hr
    rcases hfind : mem.find? (fun n => decide (n.pb_id = some r0.id)) with _ | localMatch
    · rw [pullPhase, hfind]
      dsimp only
      rw [hi r0.id]
      simp only [Bool.false_eq_true, if_false]
      rcases List.mem_cons.mp hr with rfl | hr2
      · apply pullPhase_presence
        exact ⟨_, List.mem_append_right _ (List.mem_singleton.mpr rfl), rfl⟩
      · apply ih _ _ ?_ r hr2
        intro pid hpid
        rcases hsub pid hpid with ⟨m, hm, hpb⟩
        exact ⟨m, List.mem_append_left _ hm, hpb⟩
    · rw [pullPhase, hfind]
      dsimp only
      have hlm : localMatch.pb_id = some r0.id := by
        have hfound := List.find?_some hfind
        simpa using hfound
      have hlmem : localMatch ∈ mem := List.mem_of_find?_eq_some hfind
      rcases hres : resolve localMatch.updated_at r0.updated with _ | _ <;> dsimp only
      · rw [hu localMatch.id]
        simp only [Bool.false_eq_true, if_false]
        rcases List.mem_cons.mp hr with rfl | hr2
        · apply pullPhase_presence
          rcases hsub r.id ⟨localMatch, hlmem, hlm⟩ with ⟨m, hm, hpb⟩
          refine ⟨(fun n => if n.id = localMatch.id then
              { n with title := r.title, content := r.content, updated_at := env.now }
            else n) m, List.mem_map_of_mem _ hm, ?_⟩
          by_cases hid : m.id = localMatch.id <;> simp [hid, hpb]
        · apply ih _ _ ?_ r hr2
          intro pid hpid
          rcases hsub pid hpid with ⟨m, hm, hpb⟩
          refine ⟨(fun n => if n.id = localMatch.id then
              { n with title := r0.title, content := r0.content, updated_at := env.now }
            else n) m, List.mem_map_of_mem _ hm, ?_⟩
          by_cases hid : m.id = localMatch.id <;> simp [hid, hpb]
      · rcases List.mem_cons.mp hr with rfl | hr2
        · apply pullPhase_presence
          exact hsub r.id ⟨localMatch, hlmem, hlm⟩
        · exact ih _ _ hsub r hr2

theorem pullPhase_db_origin (env : SyncEnv) (mem : List LocalNote) :
    ∀ (remotes : List RemoteDoc) (db : List LocalNote) (nl : Nat),
      ∀ m ∈ (pullPhase env mem remotes db nl).db,
        (∃ m0 ∈ db, m.pb_id = m0.pb_id) ∨ (∃ r ∈ remotes, m.pb_id = some r.id) := by
  intro remotes
  induction remotes with
  | nil => intro db nl m hm; exact Or.inl ⟨m, hm, rfl⟩
  | cons r rest ih =>
    intro db nl m hm
    rw [pullPhase] at hm
    rcases hfind : mem.find? (fun n => decide (n.pb_id = some r.id)) with _ | localMatch <;>
      rw [hfind] at hm <;> dsimp only at hm
    · by_cases hf : env.importFails r.id
      · rw [if_pos hf] at hm
        exact Or.inl ⟨m, hm, rfl⟩
      · rw [if_neg hf] at hm
        dsimp only at hm
        rcases ih _ _ m hm with ⟨m0, hm0, hpb⟩ | ⟨r2, hr2, hpb⟩
        · rcases List.mem_append.mp hm0 with h | h
          · exact Or.inl ⟨m0, h, hpb⟩
          · rw [List.mem_singleton] at h
            subst h
            exact Or.inr ⟨r, List.mem_cons_self _ _, hpb⟩
        · exact Or.inr ⟨r2, List.mem_cons_of_mem _ hr2, hpb⟩
    · rcases hres : resolve localMatch.updated_at r.updated with _ | _ <;>
        rw [hres] at hm <;> dsimp only at hm
      · by_cases hf : env.updateFails localMatch.id
        · rw [if_pos hf] at hm
          exact Or.inl ⟨m, hm, rfl⟩
        · rw [if_neg hf] at hm
          dsimp only at hm
          rcases ih _ _ m hm with ⟨m0, hm0, hpb⟩ | ⟨r2, hr2, hpb⟩
          · rcases List.mem_map.mp hm0 with ⟨m1, hm1, heq⟩
            rw [← heq] at hpb
            refine Or.inl ⟨m1, hm1, ?_⟩
            rw [hpb]
            by_cases hid : m1.id = localMatch.id <;> simp [hid]
          · exact Or.inr ⟨r2, List.mem_cons_of_mem _ hr2, hpb⟩
      · rcases ih _ _ m hm with h | ⟨r2, hr2, hpb⟩
        · exact Or.inl h
        · exact Or.inr ⟨r2, List.mem_cons_of_mem _ hr2, hpb⟩

theorem pullPhase_db_keep (env : SyncEnv) (mem : List LocalNote) :
    ∀ (remotes : List RemoteDoc) (db : List LocalNote) (nl : Nat),
      ∀ m0 ∈ db, ∃ m ∈ (pullPhase env mem remotes db nl).db,
        m.id = m0.id ∧ m.pb_id = m0.pb_id := by
  intro remotes
  induction remotes with
  | nil => intro db nl m0 hm0; exact ⟨m0, hm0, rfl, rfl⟩
  | cons r rest ih =>
    intro db nl m0 hm0
    rw [pullPhase]
    rcases hfind : mem.find? (fun n => decide (n.pb_id = some r.id)) with _ | localMatch <;>
      rw [hfind] <;> dsimp only
    · by_cases hf : env.importFails r.id
      · rw [if_pos hf]
        exact ⟨m0, hm0, rfl, rfl⟩
      · rw [if_neg hf]
        dsimp only
        exact ih _ _ m0 (List.mem_append_left _ hm0)
    · rcases hres : resolve localMatch.updated_at r.updated with _ | _ <;> dsimp only
      · by_cases hf : env.updateFails localMatch.id
        · rw [if_pos hf]
          exact ⟨m0, hm0, rfl, rfl⟩
        · rw [if_neg hf]
          dsimp only
          rcases ih (db.map (fun n => if n.id = localMatch.id then
              { n with title := r.title, content := r.content, updated_at := env.now }
            else n)) nl
            ((fun n => if n.id = localMatch.id then
              { n with title := r.title, content := r.content, updated_at := env.now }
            else n) m0) (List.mem_map_of_mem _ hm0) with ⟨m, hm, hid, hpb⟩
          refine ⟨m, hm, ?_, ?_⟩
          · rw [hid]
            by_cases h0 : m0.id = localMatch.id <;> simp [h0]
          · rw [hpb]
            by_cases h0 : m0.id = localMatch.id <;> simp [h0]
      · exact ih _ _ m0 hm0

theorem importOrUpdate_not_createFor (i : Nat) (op : Op)
    (h : isImportOp op = true ∨ isUpdateLocalOp op = true) : isCreateFor i op = false := by
  cases op <;> simp_all [isImportOp, isUpdateLocalOp, isCreateFor]

theorem importOrUpdate_not_bindFor (i : Nat) (op : Op)
    (h : isImportOp op = true ∨ isUpdateLocalOp op = true) : isBindFor i op = false := by
  cases op <;> simp_all [isImportOp, isUpdateLocalOp, isBindFor]

theorem importOrUpdate_not_bind (op : Op)
    (h : isImportOp op = true ∨ isUpdateLocalOp op = true) : isBindOp op = false := by
  cases op <;> simp_all [isImportOp, isUpdateLocalOp, isBindOp]

theorem createOrBind_not_importForPb (rid : String) (op : Op)
    (h : isCreateOp op = true ∨ isBindOp op = true) : isImportForPb rid op = false := by
  cases op <;> simp_all [isCreateOp, isBindOp, isImportForPb]

theorem syncList_syncing (env : SyncEnv) (owner : String) (st : SyncState)
    (h : st.isSyncing = true) : syncList env owner st = (st, []) := by
  unfold syncList
  rw [h]
  rfl

theorem syncList_run (env : SyncEnv) (owner : String) (st : SyncState)
    (h : st.isSyncing = false) :
    syncList env owner st =
      ({ locals := (pullPhase env (pushPhase env owner st.locals st.nextPbId).mem
            st.remotes (pushPhase env owner st.locals st.nextPbId).mem st.nextLocalId).db,
         remotes := st.remotes ++ (pushPhase env owner st.locals st.nextPbId).docs,
         nextPbId := (pushPhase env owner st.locals st.nextPbId).nextPb,
         nextLocalId := (pullPhase env (pushPhase env owner st.locals st.nextPbId).mem
            st.remotes (pushPhase env owner st.locals st.nextPbId).mem st.nextLocalId).nextLocal,
         isSyncing := false },
       (pushPhase env owner st.locals st.nextPbId).ops ++
         (pullPhase env (pushPhase env owner st.locals st.nextPbId).mem
            st.remotes (pushPhase env owner st.locals st.nextPbId).mem st.nextLocalId).ops ++
         (if (pullPhase env (pushPhase env owner st.locals st.nextPbId).mem
            st.remotes (pushPhase env owner st.locals st.nextPbId).mem st.nextLocalId).aborted
          then [] else [Op.refresh])) := by
  unfold syncList
  rw [h]
  rfl

theorem syncList_ops_no_delete (env : SyncEnv) (owner : String) (st : SyncState) :
    ∀ op ∈ (syncList env owner st).2, isDeleteOp op = false := by
  intro op hop
  by_cases h : st.isSyncing
  · rw [syncList_syncing env owner st h] at hop
    simp at hop
  · rw [syncList_run env owner st (Bool.not_eq_true st.isSyncing ▸ h)] at hop
    rcases List.mem_append.mp hop with hop2 | hop2
    · rcases List.mem_append.mp hop2 with hop3 | hop3
      · exact createOrBind_not_delete op (pushPhase_ops_kinds env owner _ _ op hop3)
      · exact importOrUpdate_not_delete op (pullPhase_ops_kinds env _ _ _ _ op hop3)
    · by_cases habort : (pullPhase env (pushPhase env owner st.locals st.nextPbId).mem
          st.remotes (pushPhase env owner st.locals st.nextPbId).mem st.nextLocalId).aborted
      · rw [if_pos habort] at hop2
        simp at hop2
      · rw [if_neg habort] at hop2
        rw [List.mem_singleton] at hop2
        subst hop2
        rfl

/-- C1: the conflict resolver, given local and remote `updated_at`
timestamps in milliseconds UTC, returns `pull` exactly when the remote
timestamp is strictly greater than the local one plus the 2000 ms
clock-skew tolerance and `noop` otherwise; in particular a remote 1500 ms
ahead resolves to `noop` and one 5000 ms ahead resolves to `pull`. -/
theorem C1_resolver_skew (L R : Int) :
    (resolve L R = SyncDecision.pull ↔ R > L + 2000) ∧
    (resolve L R = SyncDecision.noop ↔ ¬(R > L + 2000)) ∧
    resolve L (L + 1500) = SyncDecision.noop ∧
    resolve L (L + 5000) = SyncDecision.pull := by
  refine ⟨?_, ?_, ?_, ?_⟩
  · unfold resolve
    split <;> simp_all
  · unfold resolve
    split <;> simp_all
  · unfold resolve
    split
    · exfalso; omega
    · rfl
  · unfold resolve
    split
    · rfl
    · exfalso; omega

/-- C7: a reconciliation pass never deletes: for every environment, owner
and starting state, the operation trace of one `syncList` run contains no
delete on either store, and every operation in it is a remote-document
creation, an identifier binding, a local import, a local title/content
overwrite, or the refresh signal. -/
theorem C7_pass_never_deletes (env : SyncEnv) (owner : String) (st : SyncState) :
    ((syncList env owner st).2.all (fun op => !(isDeleteOp op)) = true) ∧
    ((syncList env owner st).2.all (fun op =>
        isCreateOp op || isBindOp op || isImportOp op || isUpdateLocalOp op ||
        decide (op = Op.refresh)) = true) := by
  constructor
  · rw [List.all_eq_true]
    intro op hop
    rw [syncList_ops_no_delete env owner st op hop]
    rfl
  · rw [List.all_eq_true]
    intro op hop
    by_cases h : st.isSyncing
    · rw [syncList_syncing env owner st h] at hop
      simp at hop
    · rw [syncList_run env owner st (Bool.not_eq_true st.isSyncing ▸ h)] at hop
      rcases List.mem_append.mp hop with hop2 | hop2
      · rcases List.mem_append.mp hop2 with hop3 | hop3
        · rcases pushPhase_ops_kinds env owner _ _ op hop3 with h1 | h1 <;> simp [h1]
        · rcases pullPhase_ops_kinds env _ _ _ _ op hop3 with h1 | h1 <;> simp [h1]
      · by_cases habort : (pullPhase env (pushPhase env owner st.locals st.nextPbId).mem
            st.remotes (pushPhase env owner st.locals st.nextPbId).mem st.nextLocalId).aborted
        · rw [if_pos habort] at hop2
          simp at hop2
        · rw [if_neg habort] at hop2
          rw [List.mem_singleton] at hop2
          subst hop2
          simp

/-- C3: the single-flight guard: a call arriving while the reconciling flag
is set returns at once with the state untouched and no operation issued, so
two passes never interleave; and whenever a pass actually runs (flag
initially clear), the flag is clear again when it returns, for every
environment including ones where remote calls fail, so a failed pass never
blocks future passes. -/
theorem C3_single_flight (env : SyncEnv) (owner : String) (st : SyncState) :
    (st.isSyncing = true → syncList env owner st = (st, [])) ∧
    (st.isSyncing = false → (syncList env owner st).1.isSyncing = false) := by
  constructor
  · exact syncList_syncing env owner st
  · intro h
    rw [syncList_run env owner st h]

theorem C3_single_flight_witness :
    (syncList (okEnv 0) "u" ⟨[], [], 0, 0, true⟩ = (⟨[], [], 0, 0, true⟩, [])) ∧
    ((syncList (okEnv 0) "u" ⟨[], [], 0, 0, false⟩).1.isSyncing = false) :=
  ⟨(C3_single_flight (okEnv 0) "u" ⟨[], [], 0, 0, true⟩).1 rfl,
   (C3_single_flight (okEnv 0) "u" ⟨[], [], 0, 0, false⟩).2 rfl⟩

/-- C9: on a realtime `delete` event for remote id `rid`, the listener calls
the local store directly and signals exactly a refresh — its trace is the
local delete request followed by the refresh signal, with no reconcile-pass
operation; when no local note is bound to `rid` the state is unchanged and
no error occurs (the handler is total), and a bound note is removed; on
`create` and `update` events the listener instead runs a reconciliation
pass. -/
theorem C9_realtime_handler (env : SyncEnv) (owner : String) (st : SyncState) (rid : String) :
    ((realtimeHandler env owner st RtAction.delete rid).2 =
      [Op.deleteLocalByPbReq rid, Op.refresh]) ∧
    ((∀ n ∈ st.locals, n.pb_id ≠ some rid) →
      (realtimeHandler env owner st RtAction.delete rid).1 = st) ∧
    (∀ n ∈ st.locals, n.pb_id = some rid →
      n ∉ (realtimeHandler env owner st RtAction.delete rid).1.locals) ∧
    (realtimeHandler env owner st RtAction.create rid = syncList env owner st) ∧
    (realtimeHandler env owner st RtAction.update rid = syncList env owner st) := by
  refine ⟨rfl, ?_, ?_, rfl, rfl⟩
  · intro hall
    unfold realtimeHandler
    have hfix : st.locals.filter (fun n => !decide (n.pb_id = some rid)) = st.locals := by
      apply List.filter_eq_self.mpr
      intro a ha
      simp [hall a ha]
    rw [hfix]
  · intro n hn hpb hmem
    unfold realtimeHandler at hmem
    dsimp only at hmem
    rw [List.mem_filter] at hmem
    simp [hpb] at hmem

/-- Concrete state exercising the realtime delete handler. -/
def stC9 : SyncState := ⟨[⟨1, "t", "c", 0, some "xyz"⟩], [], 0, 2, false⟩

theorem C9_realtime_handler_witness :
    ((realtimeHandler (okEnv 0) "u" stC9 RtAction.delete "nope").1 = stC9) ∧
    ((⟨1, "t", "c", 0, some "xyz"⟩ : LocalNote) ∉
      (realtimeHandler (okEnv 0) "u" stC9 RtAction.delete "xyz").1.locals) :=
  ⟨(C9_realtime_handler (okEnv 0) "u" stC9 "nope").2.1 (by decide),
   (C9_realtime_handler (okEnv 0) "u" stC9 "xyz").2.2.1 ⟨1, "t", "c", 0, some "xyz"⟩
     (by decide) rfl⟩

/-- The exact legacy wrapper string named by the specification. -/
def wrapperHello : String :=
  "[\x7b\"id\":\"main\",\"type\":\"p\",\"content\":\"hello\"\x7d]"

/-- C5 counterexample: the claim says content that is not the legacy
wrapper is transmitted unchanged, but the source flattens every JSON array
whose first element has a truthy `content` member.  The string
`[\x7b"content":"x"\x7d]` has neither an `id` nor a `type` member, so it is not
the legacy wrapper shape, yet the transform rewrites it to `"x"`. -/
theorem C5_flatten_counterexample :
    flattenContent "[\x7b\"content\":\"x\"\x7d]" = "x" ∧
    flattenContent "[\x7b\"content\":\"x\"\x7d]" ≠ "[\x7b\"content\":\"x\"\x7d]" := by
  decide

/-- C5 (amended): the legacy wrapper with inner string "hello" is flattened
to "hello" before upload; content whose trimmed form does not even start
with `[` is always transmitted unchanged (more generally, exactly the
JSON arrays whose first element has a truthy `content` member are
flattened, which covers some non-wrapper shapes as well); the push phase
sends exactly the flattened content as the created document's content; and
the pull phase imports a remote document's content verbatim, so a
flattened string pulled back equals the flattened string that was sent. -/
theorem C5_legacy_flattening :
    (flattenContent wrapperHello = "hello") ∧
    (∀ s : String, startsBracket (jsTrim s) = false → flattenContent s = s) ∧
    (∀ (env : SyncEnv) (owner : String) (n : LocalNote) (next : Nat),
      jsFalsy n.pb_id = true → env.createFails n.id = false →
      ∀ d ∈ (pushNote env owner n next).docs, d.content = flattenContent n.content) ∧
    (∀ (env : SyncEnv) (mem db : List LocalNote) (nl : Nat) (r : RemoteDoc),
      env.importFails r.id = false → (∀ m ∈ mem, m.pb_id ≠ some r.id) →
      ∃ ln ∈ (pullPhase env mem [r] db nl).db,
        ln.content = r.content ∧ ln.pb_id = some r.id) := by
  refine ⟨by decide, ?_, ?_, ?_⟩
  · intro s h
    exact flattenContent_not_bracket s h
  · intro env owner n next hfal hcf d hd
    rcases pushNote_cases env owner n next with ⟨h1, he⟩ | ⟨h1, h2, he⟩ | ⟨h1, h2, h3, he⟩ | ⟨h1, h2, h3, he⟩
    · rw [hfal] at h1; cases h1
    · rw [hcf] at h2; cases h2
    · rw [he] at hd
      rw [List.mem_singleton] at hd
      subst hd
      rfl
    · rw [he] at hd
      rw [List.mem_singleton] at hd
      subst hd
      rfl
  · intro env mem db nl r hif hunm
    have hfind : mem.find? (fun n => decide (n.pb_id = some r.id)) = none := by
      rw [List.find?_eq_none]
      intro n hn
      simp [hunm n hn]
    rw [pullPhase, hfind]
    dsimp only
    rw [hif]
    simp only [Bool.false_eq_true, if_false]
    exact ⟨_, List.mem_append_right _ (List.mem_singleton.mpr rfl), rfl, rfl⟩

theorem C5_legacy_flattening_witness :
    (startsBracket (jsTrim "hello") = false ∧ flattenContent "hello" = "hello") ∧
    (jsFalsy (none : Option String) = true ∧ (okEnv 3).createFails 1 = false ∧
      ∀ d ∈ (pushNote (okEnv 3) "u" ⟨1, "t", wrapperHello, 0, none⟩ 0).docs,
        d.content = flattenContent wrapperHello) ∧
    ((okEnv 3).importFails "r1" = false ∧
      ∃ ln ∈ (pullPhase (okEnv 3) [] [⟨"r1", "t", "hello", 0, "u"⟩] [] 0).db,
        ln.content = "hello" ∧ ln.pb_id = some "r1") := by
  refine ⟨⟨by decide, C5_legacy_flattening.2.1 "hello" (by decide)⟩, ⟨rfl, rfl, ?_⟩, ⟨rfl, ?_⟩⟩
  · exact C5_legacy_flattening.2.2.1 (okEnv 3) "u" ⟨1, "t", wrapperHello, 0, none⟩ 0 rfl rfl
  · exact C5_legacy_flattening.2.2.2 (okEnv 3) [] [] 0 ⟨"r1", "t", "hello", 0, "u"⟩ rfl
      (by simp)

theorem countP_refresh_ite (c : Prop) [inst : Decidable c] (p : Op → Bool)
    (hp : p Op.refresh = false) :
    (if c then ([] : List Op) else [Op.refresh]).countP p = 0 := by
  split <;> simp [List.countP_cons, hp]

/-- Starting state for the pull-abort counterexample: no local notes, two
remote documents "a" and "b", neither matched locally. -/
def stC6 : SyncState := ⟨[], [⟨"a", "ta", "ca", 0, "o"⟩, ⟨"b", "tb", "cb", 0, "o"⟩], 0, 0, false⟩

/-- Environment in which importing remote document "a" fails and every
other call succeeds. -/
def envC6 : SyncEnv := { okEnv 0 with importFails := fun s => decide (s = "a") }

/-- C6 counterexample: with two unmatched remote documents "a" and "b" and
a failure importing "a", the claim says "b" is still processed by the rest
of the pass; in fact the download loop has no per-note handler, the
exception aborts the remainder, and the pass issues no operation at all —
no import of "b" and not even the refresh signal. -/
theorem C6_pull_abort_counterexample :
    envC6.importFails "b" = false ∧
    (syncList envC6 "u" stC6).2.countP (isImportForPb "b") = 0 ∧
    (syncList envC6 "u" stC6).2 = [] := by
  decide

/-- C6 (amended): a single note's failure in the push loop is contained to
that note: every other eligible note is still created and bound exactly
once, and the failed note's bind state is unchanged in the resulting local
table so it is retried on the next pass.  A failure in the pull loop
instead aborts the remainder of that pass (caught only by the pass-level
handler): with all notes bound, an import failure on the first remote
document ends the pass with no operation issued and the state unchanged
apart from the cleared flag.  In both cases the failure is converted to a
log entry inside the pass — `syncList` is total, so nothing is thrown to
the caller that triggered it. -/
theorem C6_partial_failure :
    (∀ (env : SyncEnv) (owner : String) (st : SyncState),
      (st.locals.map LocalNote.id).Nodup → st.isSyncing = false →
      ∀ n ∈ st.locals, jsFalsy n.pb_id = true → env.createFails n.id = false →
        env.bindFails n.id = false →
        (syncList env owner st).2.countP (isCreateFor n.id) = 1 ∧
        (syncList env owner st).2.countP (isBindFor n.id) = 1) ∧
    (∀ (env : SyncEnv) (owner : String) (st : SyncState),
      (st.locals.map LocalNote.id).Nodup → st.isSyncing = false →
      ∀ n ∈ st.locals, env.createFails n.id = true →
        (syncList env owner st).2.countP (isCreateFor n.id) = 0 ∧
        (syncList env owner st).2.countP (isBindFor n.id) = 0 ∧
        ∃ m ∈ (syncList env owner st).1.locals, m.id = n.id ∧ m.pb_id = n.pb_id) ∧
    (∀ (env : SyncEnv) (owner : String) (st : SyncState) (r : RemoteDoc)
        (rest : List RemoteDoc),
      st.remotes = r :: rest → st.isSyncing = false →
      (∀ n ∈ st.locals, jsFalsy n.pb_id = false) →
      (∀ n ∈ st.locals, n.pb_id ≠ some r.id) →
      env.importFails r.id = true →
      syncList env owner st = ({ st with isSyncing := false }, [])) := by
  refine ⟨?_, ?_, ?_⟩
  · intro env owner st hids hflag n hn hfal hcf hbf
    rw [syncList_run env owner st hflag]
    dsimp only
    rcases pushPhase_once env owner st.locals st.nextPbId hids n hn hfal hcf hbf with
      ⟨pid, hc1, hb1, _, _, _⟩
    have hpull0c : (pullPhase env (pushPhase env owner st.locals st.nextPbId).mem
        st.remotes (pushPhase env owner st.locals st.nextPbId).mem
        st.nextLocalId).ops.countP (isCreateFor n.id) = 0 := by
      rw [List.countP_eq_zero]
      intro op hop
      simp [importOrUpdate_not_createFor n.id op (pullPhase_ops_kinds env _ _ _ _ op hop)]
    have hpull0b : (pullPhase env (pushPhase env owner st.locals st.nextPbId).mem
        st.remotes (pushPhase env owner st.locals st.nextPbId).mem
        st.nextLocalId).ops.countP (isBindFor n.id) = 0 := by
      rw [List.countP_eq_zero]
      intro op hop
      simp [importOrUpdate_not_bindFor n.id op (pullPhase_ops_kinds env _ _ _ _ op hop)]
    rw [List.countP_append, List.countP_append, List.countP_append, List.countP_append,
      hc1, hb1, hpull0c, hpull0b, countP_refresh_ite _ _ rfl, countP_refresh_ite _ _ rfl]
    exact ⟨rfl, rfl⟩
  · intro env owner st hids hflag n hn hcf
    rw [syncList_run env owner st hflag]
    dsimp only
    rcases pushPhase_createFail env owner st.locals st.nextPbId hids n hn hcf with
      ⟨hc1, hb1, hmem⟩
    have hpull0c : (pullPhase env (pushPhase env owner st.locals st.nextPbId).mem
        st.remotes (pushPhase env owner st.locals st.nextPbId).mem
        st.nextLocalId).ops.countP (isCreateFor n.id) = 0 := by
      rw [List.countP_eq_zero]
      intro op hop
      simp [importOrUpdate_not_createFor n.id op (pullPhase_ops_kinds env _ _ _ _ op hop)]
    have hpull0b : (pullPhase env (pushPhase env owner st.locals st.nextPbId).mem
        st.remotes (pushPhase env owner st.locals st.nextPbId).mem
        st.nextLocalId).ops.countP (isBindFor n.id) = 0 := by
      rw [List.countP_eq_zero]
      intro op hop
      simp [importOrUpdate_not_bindFor n.id op (pullPhase_ops_kinds env _ _ _ _ op hop)]
    refine ⟨?_, ?_, ?_⟩
    · rw [List.countP_append, List.countP_append, hc1, hpull0c, countP_refresh_ite _ _ rfl]
    · rw [List.countP_append, List.countP_append, hb1, hpull0b, countP_refresh_ite _ _ rfl]
    · rcases pullPhase_db_keep env (pushPhase env owner st.locals st.nextPbId).mem
        st.remotes (pushPhase env owner st.locals st.nextPbId).mem st.nextLocalId n hmem with
        ⟨m, hm, hid, hpb⟩
      exact ⟨m, hm, hid, hpb⟩
  · intro env owner st r rest hrem hflag hbound hunm hif
    have hpush := pushPhase_all_bound env owner st.locals st.nextPbId hbound
    have hfind : st.locals.find? (fun n => decide (n.pb_id = some r.id)) = none := by
      rw [List.find?_eq_none]
      intro n hn
      simp [hunm n hn]
    rw [syncList_run env owner st hflag, hpush]
    dsimp only
    rw [hrem, pullPhase, hfind]
    dsimp only
    rw [if_pos hif]
    dsimp only
    rw [if_pos rfl]
    rcases st with ⟨locals, remotes, npb, nl, flag⟩
    simp

/-- Push-failure environment for the containment witness: creating a remote
document fails for local note 2 only. -/
def envC6b : SyncEnv := { okEnv 0 with createFails := fun i => decide (i = 2) }

/-- Two unbound local notes; note 2's upload will fail. -/
def stC6b : SyncState := ⟨[⟨1, "t1", "c1", 0, none⟩, ⟨2, "t2", "c2", 0, none⟩], [], 0, 3, false⟩

/-- One unmatched remote document whose import fails. -/
def stC6c : SyncState := ⟨[], [⟨"a", "ta", "ca", 0, "o"⟩], 0, 0, false⟩

theorem C6_partial_failure_witness :
    ((syncList envC6b "u" stC6b).2.countP (isCreateFor 1) = 1 ∧
     (syncList envC6b "u" stC6b).2.countP (isBindFor 1) = 1) ∧
    ((syncList envC6b "u" stC6b).2.countP (isCreateFor 2) = 0 ∧
     (syncList envC6b "u" stC6b).2.countP (isBindFor 2) = 0 ∧
     ∃ m ∈ (syncList envC6b "u" stC6b).1.locals, m.id = 2 ∧ m.pb_id = none) ∧
    (syncList envC6 "u" stC6c = ({ stC6c with isSyncing := false }, [])) := by
  refine ⟨?_, ?_, ?_⟩
  · exact C6_partial_failure.1 envC6b "u" stC6b (by decide) rfl
      ⟨1, "t1", "c1", 0, none⟩ (by decide) rfl (by decide) rfl
  · exact C6_partial_failure.2.1 envC6b "u" stC6b (by decide) rfl
      ⟨2, "t2", "c2", 0, none⟩ (by decide) (by decide)
  · exact C6_partial_failure.2.2 envC6 "u" stC6c ⟨"a", "ta", "ca", 0, "o"⟩ [] rfl rfl
      (by simp [stC6c]) (by simp [stC6c]) (by decide)

theorem syncList_countP_pushonly (env : SyncEnv) (owner : String) (st : SyncState)
    (hflag : st.isSyncing = false) (p : Op → Bool) (hrefresh : p Op.refresh = false)
    (hpull : ∀ op, isImportOp op = true ∨ isUpdateLocalOp op = true → p op = false) :
    (syncList env owner st).2.countP p =
      (pushPhase env owner st.locals st.nextPbId).ops.countP p := by
  rw [syncList_run env owner st hflag]
  dsimp only
  rw [List.countP_append, List.countP_append]
  have h1 : (pullPhase env (pushPhase env owner st.locals st.nextPbId).mem
      st.remotes (pushPhase env owner st.locals st.nextPbId).mem
      st.nextLocalId).ops.countP p = 0 := by
    rw [List.countP_eq_zero]
    intro op hop
    simp [hpull op (pullPhase_ops_kinds env _ _ _ _ op hop)]
  rw [h1, countP_refresh_ite _ _ hrefresh]
  omega

theorem syncList_countP_pullonly (env : SyncEnv) (owner : String) (st : SyncState)
    (hflag : st.isSyncing = false) (p : Op → Bool) (hrefresh : p Op.refresh = false)
    (hpush : ∀ op, isCreateOp op = true ∨ isBindOp op = true → p op = false) :
    (syncList env owner st).2.countP p =
      (pullPhase env (pushPhase env owner st.locals st.nextPbId).mem st.remotes
        (pushPhase env owner st.locals st.nextPbId).mem st.nextLocalId).ops.countP p := by
  rw [syncList_run env owner st hflag]
  dsimp only
  rw [List.countP_append, List.countP_append]
  have h1 : (pushPhase env owner st.locals st.nextPbId).ops.countP p = 0 := by
    rw [List.countP_eq_zero]
    intro op hop
    simp [hpush op (pushPhase_ops_kinds env owner _ _ op hop)]
  rw [h1, countP_refresh_ite _ _ hrefresh]
  omega

/-- C2: for every local note lacking a (truthy) remote id at the start of a
pass, a successful pass issues exactly one remote-document creation for it
(carrying its title and flattened content) and exactly one binding of the
returned id onto it; and a second pass on the resulting state — under any
environment — issues no remote-document creation at all. -/
theorem C2_push_binds_once (env env2 : SyncEnv) (owner owner2 : String) (st : SyncState)
    (henv : noFailures env)
    (hflag : st.isSyncing = false)
    (hids : (st.locals.map LocalNote.id).Nodup)
    (hrne : ∀ r ∈ st.remotes, r.id ≠ "") :
    (∀ n ∈ st.locals, jsFalsy n.pb_id = true →
      ∃ pid : String,
        (syncList env owner st).2.countP (isCreateFor n.id) = 1 ∧
        (syncList env owner st).2.countP (isBindFor n.id) = 1 ∧
        Op.createRemote n.id pid n.title (flattenContent n.content) owner
          ∈ (syncList env owner st).2 ∧
        Op.bindPbId n.id pid ∈ (syncList env owner st).2) ∧
    ((syncList env2 owner2 (syncList env owner st).1).2.countP isCreateOp = 0) := by
  constructor
  · intro n hn hfal
    rcases pushPhase_once env owner st.locals st.nextPbId hids n hn hfal
      (henv.1 n.id) (henv.2.1 n.id) with ⟨pid, hc1, hb1, hcm, hbm, _⟩
    refine ⟨pid, ?_, ?_, ?_, ?_⟩
    · rw [syncList_countP_pushonly env owner st hflag _ rfl
        (fun op h => importOrUpdate_not_createFor n.id op h), hc1]
    · rw [syncList_countP_pushonly env owner st hflag _ rfl
        (fun op h => importOrUpdate_not_bindFor n.id op h), hb1]
    · rw [syncList_run env owner st hflag]
      exact List.mem_append_left _ (List.mem_append_left _ hcm)
    · rw [syncList_run env owner st hflag]
      exact List.mem_append_left _ (List.mem_append_left _ hbm)
  · have hboundmem : ∀ m ∈ (pushPhase env owner st.locals st.nextPbId).mem,
        jsFalsy m.pb_id = false :=
      pushPhase_mem_bound env owner st.locals henv.1 henv.2.1 st.nextPbId
    have hdb : ∀ m ∈ (syncList env owner st).1.locals, jsFalsy m.pb_id = false := by
      rw [syncList_run env owner st hflag]
      intro m hm
      rcases pullPhase_db_origin env (pushPhase env owner st.locals st.nextPbId).mem
        st.remotes (pushPhase env owner st.locals st.nextPbId).mem st.nextLocalId m hm with
        ⟨m0, hm0, hpb⟩ | ⟨r2, hr2, hpb⟩
      · have heq : jsFalsy m.pb_id = jsFalsy m0.pb_id := by rw [hpb]
        rw [heq]
        exact hboundmem m0 hm0
      · have heq : jsFalsy m.pb_id = jsFalsy (some r2.id) := by rw [hpb]
        rw [heq]
        simp [jsFalsy, hrne r2 hr2]
    have hflag2 : (syncList env owner st).1.isSyncing = false := by
      rw [syncList_run env owner st hflag]
    rw [syncList_countP_pushonly env2 owner2 (syncList env owner st).1 hflag2 isCreateOp rfl
      (fun op h => importOrUpdate_not_create op h)]
    rw [pushPhase_all_bound env2 owner2 (syncList env owner st).1.locals
      (syncList env owner st).1.nextPbId hdb]
    rfl

/-- One unbound local note, empty remote store. -/
def stC2 : SyncState := ⟨[⟨1, "t", "hi", 0, none⟩], [], 0, 2, false⟩

theorem C2_push_binds_once_witness :
    (∃ pid, (syncList (okEnv 5) "u" stC2).2.countP (isCreateFor 1) = 1 ∧
       (syncList (okEnv 5) "u" stC2).2.countP (isBindFor 1) = 1 ∧
       Op.createRemote 1 pid "t" (flattenContent "hi") "u" ∈ (syncList (okEnv 5) "u" stC2).2 ∧
       Op.bindPbId 1 pid ∈ (syncList (okEnv 5) "u" stC2).2) ∧
    ((syncList (okEnv 6) "v" (syncList (okEnv 5) "u" stC2).1).2.countP isCreateOp = 0) := by
  have h := C2_push_binds_once (okEnv 5) (okEnv 6) "u" "v" stC2 (okEnv_noFailures 5) rfl
    (by decide) (by simp [stC2])
  exact ⟨h.1 ⟨1, "t", "hi", 0, none⟩ (by decide) rfl, h.2⟩

/-- One remote document with an empty title and no local notes. -/
def stC4 : SyncState := ⟨[], [⟨"r1", "", "hi", 5, "o"⟩], 0, 0, false⟩

/-- C4 counterexample: the claim says the pull phase imports "the remote
title"; for a remote document whose title is the empty string the code
stores `'Untitled'` instead (`remote.title || 'Untitled'`), so the created
local note's title differs from the remote title. -/
theorem C4_untitled_counterexample :
    (syncList (okEnv 9) "u" stC4).2 =
      [Op.importLocal 0 "r1" "Untitled" "hi" 5, Op.refresh] ∧
    ("Untitled" : String) ≠ "" := by
  decide

/-- C4 (amended): for every remote document unmatched at the start of a
successful pass, the pull phase issues exactly one local import for it,
carrying the remote content and timestamp and the remote title with the
empty title replaced by `'Untitled'`; a second pass on the resulting state
issues no import at all; and — in any pass, under any environment — a
remote id that the push phase bound onto an in-memory local note is never
imported by that same pass's pull phase. -/
theorem C4_pull_imports_once (env env2 : SyncEnv) (owner owner2 : String) (st : SyncState)
    (henv : noFailures env)
    (hflag : st.isSyncing = false)
    (hrids : (st.remotes.map RemoteDoc.id).Nodup)
    (hrne : ∀ r ∈ st.remotes, r.id ≠ "")
    (hfresh : ∀ k, k < st.nextPbId + st.locals.length → st.nextPbId ≤ k →
        ∀ r ∈ st.remotes, r.id ≠ genId k) :
    (∀ r ∈ st.remotes, (∀ n ∈ st.locals, n.pb_id ≠ some r.id) →
      (syncList env owner st).2.countP (isImportForPb r.id) = 1 ∧
      ∃ lid, Op.importLocal lid r.id (importTitle r.title) r.content r.updated
        ∈ (syncList env owner st).2) ∧
    ((syncList env2 owner2 (syncList env owner st).1).2.countP isImportOp = 0) ∧
    (∀ (env3 : SyncEnv) (owner3 : String) (st3 : SyncState) (i : Nat) (pid : String),
      Op.bindPbId i pid ∈ (syncList env3 owner3 st3).2 →
      (syncList env3 owner3 st3).2.countP (isImportForPb pid) = 0) := by
  refine ⟨?_, ?_, ?_⟩
  · intro r hr hunm
    have hmemunm : ∀ m ∈ (pushPhase env owner st.locals st.nextPbId).mem,
        m.pb_id ≠ some r.id := by
      intro m hm
      rcases pushPhase_mem_spec env owner st.locals st.nextPbId m hm with
        ⟨n, hn, pb, rfl, hshape⟩
      dsimp only
      rcases hshape with h | ⟨k, hk1, hk2, h⟩
      · rw [h]
        exact hunm n hn
      · rw [h]
        intro hcontra
        have hkle := pushPhase_nextPb_le env owner st.locals st.nextPbId
        have hgen : r.id = genId k := by
          injection hcontra with h2
          exact h2.symm
        exact hfresh k (by omega) hk1 r hr hgen
    constructor
    · rw [syncList_countP_pullonly env owner st hflag _ rfl
        (fun op h => createOrBind_not_importForPb r.id op h)]
      exact (pullPhase_import_once env (pushPhase env owner st.locals st.nextPbId).mem
        henv.2.2.1 henv.2.2.2 st.remotes (pushPhase env owner st.locals st.nextPbId).mem
        st.nextLocalId r hr hrids hmemunm).1
    · rcases (pullPhase_import_once env (pushPhase env owner st.locals st.nextPbId).mem
        henv.2.2.1 henv.2.2.2 st.remotes (pushPhase env owner st.locals st.nextPbId).mem
        st.nextLocalId r hr hrids hmemunm).2 with ⟨lid, hmem⟩
      refine ⟨lid, ?_⟩
      rw [syncList_run env owner st hflag]
      exact List.mem_append_left _ (List.mem_append_right _ hmem)
  · have hboundmem : ∀ m ∈ (pushPhase env owner st.locals st.nextPbId).mem,
        jsFalsy m.pb_id = false :=
      pushPhase_mem_bound env owner st.locals henv.1 henv.2.1 st.nextPbId
    have hdb : ∀ m ∈ (syncList env owner st).1.locals, jsFalsy m.pb_id = false := by
      rw [syncList_run env owner st hflag]
      intro m hm
      rcases pullPhase_db_origin env (pushPhase env owner st.locals st.nextPbId).mem
        st.remotes (pushPhase env owner st.locals st.nextPbId).mem st.nextLocalId m hm with
        ⟨m0, hm0, hpb⟩ | ⟨r2, hr2, hpb⟩
      · have heq : jsFalsy m.pb_id = jsFalsy m0.pb_id := by rw [hpb]
        rw [heq]
        exact hboundmem m0 hm0
      · have heq : jsFalsy m.pb_id = jsFalsy (some r2.id) := by rw [hpb]
        rw [heq]
        simp [jsFalsy, hrne r2 hr2]
    have hflag2 : (syncList env owner st).1.isSyncing = false := by
      rw [syncList_run env owner st hflag]
    have hmatched : ∀ r2 ∈ (syncList env owner st).1.remotes,
        ∃ n ∈ (syncList env owner st).1.locals, n.pb_id = some r2.id := by
      rw [syncList_run env owner st hflag]
      intro r2 hr2
      rcases List.mem_append.mp hr2 with h | h
      · exact pullPhase_covers env (pushPhase env owner st.locals st.nextPbId).mem
          henv.2.2.1 henv.2.2.2 st.remotes (pushPhase env owner st.locals st.nextPbId).mem
          st.nextLocalId (fun pid hp => hp) r2 h
      · rcases pushPhase_docs_bound env owner st.locals henv.1 henv.2.1 st.nextPbId r2 h with
          ⟨m, hm, hpb⟩
        exact pullPhase_presence env (pushPhase env owner st.locals st.nextPbId).mem
          st.remotes (pushPhase env owner st.locals st.nextPbId).mem st.nextLocalId
          r2.id ⟨m, hm, hpb⟩
    rw [syncList_countP_pullonly env2 owner2 (syncList env owner st).1 hflag2 isImportOp rfl
      (fun op h => createOrBind_not_import op h)]
    rw [pushPhase_all_bound env2 owner2 (syncList env owner st).1.locals
      (syncList env owner st).1.nextPbId hdb]
    exact pullPhase_all_matched env2 (syncList env owner st).1.locals
      (syncList env owner st).1.remotes (syncList env owner st).1.locals
      (syncList env owner st).1.nextLocalId hmatched
  · intro env3 owner3 st3 i pid hbind
    by_cases h3 : st3.isSyncing
    · rw [syncList_syncing env3 owner3 st3 h3] at hbind
      simp at hbind
    · have hflag3 : st3.isSyncing = false := by simpa using h3
      have hbind2 := hbind
      rw [syncList_run env3 owner3 st3 hflag3] at hbind2
      rcases List.mem_append.mp hbind2 with h | h
      · rcases List.mem_append.mp h with h | h
        · rcases pushPhase_bind_mem env3 owner3 st3.locals st3.nextPbId i pid h with
            ⟨m, hm, hpb⟩
          rw [syncList_countP_pullonly env3 owner3 st3 hflag3 _ rfl
            (fun op hk => createOrBind_not_importForPb pid op hk)]
          exact pullPhase_matched_no_import env3 (pushPhase env3 owner3 st3.locals st3.nextPbId).mem
            st3.remotes (pushPhase env3 owner3 st3.locals st3.nextPbId).mem
            st3.nextLocalId pid ⟨m, hm, hpb⟩
        · have hk := pullPhase_ops_kinds env3 _ _ _ _ _ h
          have := importOrUpdate_not_bind (Op.bindPbId i pid) hk
          simp [isBindOp] at this
      · by_cases habort : (pullPhase env3 (pushPhase env3 owner3 st3.locals st3.nextPbId).mem
            st3.remotes (pushPhase env3 owner3 st3.locals st3.nextPbId).mem
            st3.nextLocalId).aborted
        · rw [if_pos habort] at h
          simp at h
        · rw [if_neg habort] at h
          rw [List.mem_singleton] at h
          cases h

/-- One unmatched remote document with a nonempty title. -/
def stC4w : SyncState := ⟨[], [⟨"r1", "T", "C", 5, "o"⟩], 0, 0, false⟩

theorem C4_pull_imports_once_witness :
    ((syncList (okEnv 7) "u" stC4w).2.countP (isImportForPb "r1") = 1 ∧
      ∃ lid, Op.importLocal lid "r1" (importTitle "T") "C" 5
        ∈ (syncList (okEnv 7) "u" stC4w).2) ∧
    ((syncList (okEnv 8) "v" (syncList (okEnv 7) "u" stC4w).1).2.countP isImportOp = 0) ∧
    ((syncList (okEnv 5) "w" ⟨[⟨1, "t", "hi", 0, none⟩], [], 0, 2, false⟩).2.countP
        (isImportForPb "pb") = 0) := by
  have h := C4_pull_imports_once (okEnv 7) (okEnv 8) "u" "v" stC4w (okEnv_noFailures 7) rfl
    (by decide) (by decide) (by intro k hk; simp [stC4w] at hk)
  refine ⟨h.1 ⟨"r1", "T", "C", 5, "o"⟩ (by decide) (by decide), h.2.1, ?_⟩
  exact h.2.2 (okEnv 5) "w" ⟨[⟨1, "t", "hi", 0, none⟩], [], 0, 2, false⟩ 1 "pb" (by decide)

/-- A local note bound to remote id "abc123", and its remote document. -/
def stC8 : SyncState :=
  ⟨[⟨1, "t", "c", 0, some "abc123"⟩], [⟨"abc123", "t", "c", 0, "o"⟩], 0, 2, false⟩

/-- C8: evaluation of the delete flow at the failing input.  Deleting local
note 1, which is bound to remote id "abc123", through the application's
delete path (`handleDeleteNote`: `invoke('delete_note')` plus a list
refresh) issues zero remote-store calls — no code in the sources ever
dispatches the `onyx:deleted-note` event, so the engine's delete listener
never runs.  The listener itself, were the event delivered, would issue
exactly one delete call for "abc123", and on failure of that call it only
logs: the local table is untouched and nothing is retried. -/
theorem C8_local_delete_not_propagated :
    ((appDeleteFlow stC8 1).2.countP isRemoteReq = 0 ∧
     (appDeleteFlow stC8 1).1.locals = [] ∧
     (appDeleteFlow stC8 1).1.remotes = stC8.remotes) ∧
    ((handleLocalDelete (okEnv 0) stC8 (some "abc123")).2.countP
        (fun op => decide (op = Op.deleteRemoteReq "abc123")) = 1 ∧
     (handleLocalDelete { okEnv 0 with remoteDeleteFails := true } stC8
        (some "abc123")).1.locals = stC8.locals ∧
     (handleLocalDelete { okEnv 0 with remoteDeleteFails := true } stC8
        (some "abc123")).2 = [Op.deleteRemoteReq "abc123"]) := by
  decide

/-- C10: the editor's save path never creates a remote document: its trace
contains no remote-document creation; every remote call it issues is an
update of an existing document whose id came from the in-memory ref or
from the note's stored binding (and is nonempty, hence truthy); and when
neither the ref nor the stored note carries a truthy binding, the save is
local only — no remote call at all and the remote store unchanged. -/
theorem C10_editor_save_no_create (env : SyncEnv) (st : SyncState) (online : Bool)
    (ref : Option String) (id : Nat) (t c : String) :
    ((saveToDatabase env st online ref id t c).2.1.countP isCreateOp = 0) ∧
    (∀ pid tt cc, Op.updateRemoteReq pid tt cc ∈ (saveToDatabase env st online ref id t c).2.1 →
      pid ≠ "" ∧ (ref = some pid ∨ ∃ n ∈ st.locals, n.id = id ∧ n.pb_id = some pid)) ∧
    ((jsFalsy ref = true) → (∀ n ∈ st.locals, n.id = id → jsFalsy n.pb_id = true) →
      (saveToDatabase env st online ref id t c).2.1.countP isRemoteReq = 0 ∧
      (saveToDatabase env st online ref id t c).1.remotes = st.remotes) := by
  by_cases h0 : id = 0
  · unfold saveToDatabase
    rw [if_pos h0]
    refine ⟨rfl, ?_, fun _ _ => ⟨rfl, rfl⟩⟩
    intro pid tt cc hmem
    simp at hmem
  · cases online with
    | false =>
      unfold saveToDatabase
      rw [if_neg h0]
      simp only [Bool.false_eq_true, if_false]
      refine ⟨by simp [isCreateOp], ?_, ?_⟩
      · intro pid tt cc hmem
        simp at hmem
      · intro _ _
        exact ⟨by simp [isRemoteReq], by simp⟩
    | true =>
      unfold saveToDatabase
      rw [if_neg h0]
      simp only [if_true]
      rcases hpb : (if jsFalsy ref then
          match (st.locals.map (fun n => if n.id = id then
            { n with title := t, content := wrapContent c, updated_at := env.now }
          else n)).find? (fun n => decide (n.id = id)) with
          | some found => if jsFalsy found.pb_id then ref else found.pb_id
          | none => ref
        else ref) with _ | pid0
      · rw [hpb]
        dsimp only
        refine ⟨by simp [isCreateOp], ?_, ?_⟩
        · intro pid tt cc hmem
          simp at hmem
        · intro _ _
          exact ⟨by simp [isRemoteReq], by simp⟩
      · rw [hpb]
        dsimp only
        by_cases hz : pid0 = ""
        · rw [if_pos hz]
          refine ⟨by simp [isCreateOp], ?_, ?_⟩
          · intro pid tt cc hmem
            simp at hmem
          · intro _ _
            exact ⟨by simp [isRemoteReq], by simp⟩
        · rw [if_neg hz]
          have hprov : ref = some pid0 ∨
              ∃ n ∈ st.locals, n.id = id ∧ n.pb_id = some pid0 := by
            by_cases href : jsFalsy ref
            · rw [if_pos href] at hpb
              rcases hfind : (st.locals.map (fun n => if n.id = id then
                  { n with title := t, content := wrapContent c, updated_at := env.now }
                else n)).find? (fun n => decide (n.id = id)) with _ | found
              · rw [hfind] at hpb
                dsimp only at hpb
                rw [hpb] at href
                simp [jsFalsy] at href
                exact absurd href hz
              · rw [hfind] at hpb
                dsimp only at hpb
                by_cases hfpb : jsFalsy found.pb_id
                · rw [if_pos hfpb] at hpb
                  rw [hpb] at href
                  simp [jsFalsy] at href
                  exact absurd href hz
                · rw [if_neg hfpb] at hpb
                  have hfd := List.mem_of_find?_eq_some hfind
                  have hfid : found.id = id := by
                    have := List.find?_some hfind
                    simpa using this
                  rcases List.mem_map.mp hfd with ⟨m, hm, heq⟩
                  refine Or.inr ⟨m, hm, ?_, ?_⟩
                  · rw [← hfid, ← heq]
                    by_cases hmid : m.id = id <;> simp [hmid]
                  · rw [← hpb, ← heq]
                    by_cases hmid : m.id = id <;> simp [hmid]
            · rw [if_neg href] at hpb
              exact Or.inl hpb
          refine ⟨by simp [isCreateOp, List.countP_cons, List.countP_append], ?_, ?_⟩
          · intro pid tt cc hmem
            simp only [List.mem_append, List.mem_singleton, List.mem_cons,
              List.not_mem_nil, or_false] at hmem
            rcases hmem with hmem | hmem
            · cases hmem
            · injection hmem with e1 e2 e3
              subst e1
              exact ⟨hz, hprov⟩
          · intro href hall
            exfalso
            rcases hprov with hprov | ⟨n, hn, hid, hpbn⟩
            · rw [hprov] at href
              simp [jsFalsy] at href
              exact hz href
            · have := hall n hn hid
              rw [hpbn] at this
              simp [jsFalsy] at this
              exact hz this

/-- One local note bound to "r9" and its remote document. -/
def stC10a : SyncState :=
  ⟨[⟨1, "t", "c", 0, some "r9"⟩], [⟨"r9", "a", "b", 0, "o"⟩], 0, 2, false⟩

/-- One unbound local note. -/
def stC10b : SyncState := ⟨[⟨2, "t", "c", 0, none⟩], [], 0, 3, false⟩

theorem C10_editor_save_no_create_witness :
    ((saveToDatabase (okEnv 7) stC10a true none 1 "nt" "nc").2.1.countP isCreateOp = 0) ∧
    ("r9" ≠ "" ∧ ((none : Option String) = some "r9" ∨
      ∃ n ∈ stC10a.locals, n.id = 1 ∧ n.pb_id = some "r9")) ∧
    ((saveToDatabase (okEnv 7) stC10b true none 2 "nt" "nc").2.1.countP isRemoteReq = 0 ∧
     (saveToDatabase (okEnv 7) stC10b true none 2 "nt" "nc").1.remotes = stC10b.remotes) :=
  ⟨(C10_editor_save_no_create (okEnv 7) stC10a true none 1 "nt" "nc").1,
   (C10_editor_save_no_create (okEnv 7) stC10a true none 1 "nt" "nc").2.1 "r9" "nt" "nc"
     (by decide),
   (C10_editor_save_no_create (okEnv 7) stC10b true none 2 "nt" "nc").2.2 rfl (by decide)⟩
